import Mathlib

/-!
Shallow embedding of the feed-update pipeline of the `feedreader` repository:
the ignored-word content filter (`src/lib/utils/ignoredWords.ts` and the
service-worker copy in `sw.js`), the worker-side single-feed update cycle and
its retry controller (`rss-worker.ts`), the bulk update orchestration, the two
persist paths (`WorkerManager.saveFeedItems` + `DatabaseService.addFeedItems`,
and `RSSServiceWorker.performSaveNewFeedItems`), and the Web-Locks gate that
serializes them.  Strings are modelled as Lean `String`s over their character
lists; JavaScript lower-casing / `\b` word boundaries are modelled at ASCII
precision, which covers every string the pipeline itself constructs.
-/

namespace Feedreader

/-! ### JavaScript string primitives -/

/-- JS `String.prototype.toLowerCase`, at ASCII precision. -/
def lowerStr (s : String) : String :=
  ⟨s.data.map Char.toLower⟩

/-- JS `String.prototype.trim`: strip whitespace from both ends. -/
def trimChars (l : List Char) : List Char :=
  ((l.dropWhile Char.isWhitespace).reverse.dropWhile Char.isWhitespace).reverse

/-- JS `String.prototype.trim` on strings. -/
def trimStr (s : String) : String :=
  ⟨trimChars s.data⟩

/-- Substring test on character lists: JS `String.prototype.includes`.
`containsSub hay needle` is `true` iff `needle` occurs contiguously in `hay`
(the empty needle always occurs, as in JS). -/
def containsSub (hay needle : List Char) : Bool :=
  match hay with
  | [] => needle.isEmpty
  | c :: rest => needle.isPrefixOf (c :: rest) || containsSub rest needle

/-- JS `a.includes(b)` on strings. -/
def strIncludes (a b : String) : Bool :=
  containsSub a.data b.data

/-- JS word character (`\w` = `[A-Za-z0-9_]`). -/
def isWordChar (c : Char) : Bool :=
  c.isAlphanum || c = '_'

/-- Whether position `i` of `t` holds a word character (`false` out of range). -/
def wordAt (t : List Char) (i : Nat) : Bool :=
  match t.get? i with
  | some c => isWordChar c
  | none => false

/-- Whether a `\b` regex boundary sits immediately before index `i` of `t`:
the word-character status changes between positions `i - 1` and `i`
(positions outside the text count as non-word). -/
def boundaryAt (t : List Char) (i : Nat) : Bool :=
  (match i with
   | 0 => false
   | j + 1 => wordAt t j) != wordAt t i

/-- JS `new RegExp("\\b" + escaped(w) + "\\b").test(t)`: the escaping in the
source makes `w` match literally, so the test holds iff `w` occurs in `t`
with `\b` boundaries on both sides. -/
def wordBoundaryTest (t w : List Char) : Bool :=
  (List.range (t.length + 1)).any fun i =>
    w.isPrefixOf (t.drop i) && boundaryAt t i && boundaryAt t (i + w.length)

/-! ### Ignored-word rule matching

Embeds the rule matcher shared verbatim by `shouldHideContent` in
`src/lib/utils/ignoredWords.ts` (`src/unnamed/part_000`) and by
`RSSServiceWorker.shouldHideContent` in `sw.js` (`src/unnamed/part_016`):
both lower-case and trim the rule, dispatch on leading/trailing `*`, and in
all three wildcard branches call `textToCheck.includes(cleanWord)`; only the
bare-word branch builds a `\b...\b` regex. -/

/-- One ignored-word rule evaluated against the (already lower-cased)
text, exactly as in the `ignoredWords.some(word => ...)` callback. -/
def matchesIgnoredWord (textToCheck : String) (word : String) : Bool :=
  let lowerWord := trimStr (lowerStr word)
  if lowerWord.data.isEmpty then false
  else if lowerWord.data.head? = some '*' && lowerWord.data.getLast? = some '*' then
    containsSub textToCheck.data (lowerWord.data.drop 1).dropLast
  else if lowerWord.data.head? = some '*' then
    containsSub textToCheck.data (lowerWord.data.drop 1)
  else if lowerWord.data.getLast? = some '*' then
    containsSub textToCheck.data lowerWord.data.dropLast
  else
    wordBoundaryTest textToCheck.data lowerWord.data

/-! ### The parsed item and `combineStringProperties` -/

/-- A JavaScript property value, as discriminated by `typeof v === 'string'`
in `combineStringProperties`. -/
inductive JsValue where
  | str (s : String)
  | arr (l : List String)
  | undef
deriving Repr, DecidableEq

/-- `typeof v === 'string'` projection. -/
def JsValue.asString : JsValue → Option String
  | .str s => some s
  | _ => none

/-- The raw item produced by `rss-parser` for one feed entry, as declared by
`ParsedFeedItem` in `src/lib/types` (`src/unnamed/part_000`): `pubDate` and
`guid` are strings on the raw object.  Optional fields model properties that
may be absent (`undefined`). -/
structure ParsedItem where
  title : Option String
  link : Option String
  description : Option String
  content : Option String
  author : Option String
  pubDate : Option String
  guid : Option String
  categories : Option (List String)
deriving Repr, DecidableEq

/-- `Object.values(obj)` for a parsed item, in declaration order; an absent
optional property contributes `undef` (which `typeof`-filters away exactly
like a missing key). -/
def parsedItemValues (it : ParsedItem) : List JsValue :=
  [ it.title.elim JsValue.undef JsValue.str,
    it.link.elim JsValue.undef JsValue.str,
    it.description.elim JsValue.undef JsValue.str,
    it.content.elim JsValue.undef JsValue.str,
    it.author.elim JsValue.undef JsValue.str,
    it.pubDate.elim JsValue.undef JsValue.str,
    it.guid.elim JsValue.undef JsValue.str,
    it.categories.elim JsValue.undef JsValue.arr ]

/-- JS `Array.prototype.join(' ')`. -/
def joinSpace : List String → String
  | [] => ""
  | [s] => s
  | s :: t :: rest => s ++ " " ++ joinSpace (t :: rest)

/-- `combineStringProperties` from `src/lib/utils/ignoredWords.ts`:
`Object.values(obj).filter(v => typeof v === 'string').join(' ')`. -/
def combineStringProperties (values : List JsValue) : String :=
  joinSpace (values.filterMap JsValue.asString)

/-- `shouldHideContent` from `src/lib/utils/ignoredWords.ts`
(`src/unnamed/part_000`): empty rule list short-circuits to `false`,
otherwise the rules are `some`-folded over the lower-cased concatenation of
the item's string-valued properties. -/
def shouldHideContent (article : ParsedItem) (ignoredWords : List String) : Bool :=
  if ignoredWords.length = 0 then false
  else
    let textToCheck := lowerStr (combineStringProperties (parsedItemValues article))
    ignoredWords.any fun word => matchesIgnoredWord textToCheck word

/-- `RSSServiceWorker.shouldHideContent` from `sw.js`
(`src/unnamed/part_016`): same matcher, but the text is the interpolation
`` `${title} ${description} ${content}` `` lower-cased. -/
def swShouldHideContent (title description content : String)
    (ignoredWords : List String) : Bool :=
  if ignoredWords.isEmpty then false
  else
    let textToCheck := lowerStr (title ++ " " ++ description ++ " " ++ content)
    ignoredWords.any fun word => matchesIgnoredWord textToCheck word

/-! ### Worker-side single-feed item construction (`rss-worker.ts`)

`RSSWorker.updateSingleFeed` filters the parsed items with
`item.title && item.link` (JS truthiness: absent or empty string is falsy),
then maps each survivor to a `FeedItem`-shaped record: `feedId` is stamped,
`guid` is `item.guid || item.link || <synthesized fresh value>`,
`isHidden := shouldHideContent(item, ignoredWords)` is computed on the *raw*
parsed item, and `pubDate := this.parseDate(item.pubDate)` — a date value
(milliseconds since the epoch, negative for pre-epoch dates), which matters
downstream because the `DatabaseService` dedup read is bounded by it.  The
string-format handling inside `parseDate` is abstracted as an oracle; the
HTML-cleaned display fields (`title`, `description`, `content`, `author`)
and `categories`/`ogImage` normalization participate in no claim and are
elided from the record. -/

/-- JS truthiness of a possibly-absent string (`undefined` and `""` falsy). -/
def jsTruthy : Option String → Bool
  | none => false
  | some s => !s.isEmpty

/-- JS `a || b` for possibly-absent strings. -/
def jsOrStr (a : Option String) (b : String) : String :=
  if jsTruthy a then a.getD "" else b

/-- The filter `feed.items.filter(item => item.title && item.link)` in
`RSSWorker.updateSingleFeed` (`src/unnamed/part_002`). -/
def keepsParsedItem (it : ParsedItem) : Bool :=
  jsTruthy it.title && jsTruthy it.link

/-- The worker-produced item record, restricted to the fields the persist
step and the completion report consume; `pubDate` is the parsed date in
milliseconds since the epoch. -/
structure WItem where
  feedId : String
  guid : String
  isHidden : Bool
  pubDate : Int
deriving Repr, DecidableEq

/-- One survivor of the title/link filter, converted as in the `.map` of
`updateSingleFeed`; `fallbackGuid` stands for the synthesized
`` `${feedId}-${Date.now()}-${Math.random()}` `` value and `parseDate` for
`RSSWorker.parseDate` applied to the raw `pubDate` string. -/
def mkWorkerItem (feedId : String) (ignoredWords : List String)
    (fallbackGuid : String) (parseDate : Option String → Int)
    (it : ParsedItem) : WItem :=
  { feedId := feedId
    guid := jsOrStr it.guid (jsOrStr it.link fallbackGuid)
    isHidden := shouldHideContent it ignoredWords
    pubDate := parseDate it.pubDate }

/-- The full item-conversion stage of `updateSingleFeed`: title/link filter,
then the map; `fresh i` supplies the synthesized guid for the `i`-th
survivor. -/
def workerProcessItems (feedId : String) (ignoredWords : List String)
    (fresh : Nat → String) (parseDate : Option String → Int)
    (parsed : List ParsedItem) : List WItem :=
  ((parsed.filter keepsParsedItem).enum).map fun p =>
    mkWorkerItem feedId ignoredWords (fresh p.1) parseDate p.2

/-- The `UPDATE_COMPLETE` payload of `updateSingleFeed`:
`totalItems = items.length`, `hiddenItems = items.filter(i => i.isHidden).length`,
both counted over *all* converted items (before deduplication). -/
structure CompleteReport where
  feedId : String
  totalItems : Nat
  hiddenItems : Nat
deriving Repr, DecidableEq

/-- Builds the completion report from the converted item list. -/
def mkCompleteReport (feedId : String) (items : List WItem) : CompleteReport :=
  { feedId := feedId
    totalItems := items.length
    hiddenItems := (items.filter (·.isHidden)).length }

/-! ### The durable item store and the two persist paths -/

/-- A record of the IndexedDB `feedItems` object store (key path `id`),
restricted to the fields the dedup/identity claims consume; `pubDate` is
the stored date in milliseconds since the epoch (negative before it), the
component of the `by-feedId-pubDate` index that bounds the
`DatabaseService` read. -/
structure StoredItem where
  id : String
  feedId : String
  guid : String
  isHidden : Bool
  pubDate : Int
deriving Repr, DecidableEq

/-- The `feedItems` store contents. -/
abbrev ItemStore := List StoredItem

/-- IndexedDB `put` on a store with key path `id`: replace the record with
the same key if present, else append. -/
def putItem (s : ItemStore) (x : StoredItem) : ItemStore :=
  if s.any (fun y => y.id == x.id) then
    s.map (fun y => if y.id == x.id then x else y)
  else
    s ++ [x]

/-- `DatabaseService.addFeedItems` (`src/src/lib/db/database.ts`): each
incoming item is stored under the derived identity
`` `${item.feedId}-${item.guid}` ``. -/
def dbItemId (feedId guid : String) : String :=
  feedId ++ "-" ++ guid

/-- The stored record `addFeedItems` builds for one incoming item. -/
def mkDbStored (w : WItem) : StoredItem :=
  { id := dbItemId w.feedId w.guid
    feedId := w.feedId
    guid := w.guid
    isHidden := w.isHidden
    pubDate := w.pubDate }

/-- `DatabaseService.addFeedItems`: `put` every incoming item under its
derived id, in order. -/
def addFeedItems (items : List WItem) (s : ItemStore) : ItemStore :=
  items.foldl (fun st w => putItem st (mkDbStored w)) s

/-- The feed's complete stored guid set.  This is the read the *service
worker's* `getFeedItems` performs (`sw.js`: `by-feedId` index,
`getAll(feedId)`, no date bound), and the reference set for the dedup
invariant. -/
def storedGuids (s : ItemStore) (feedId : String) : List String :=
  (s.filter (fun y => y.feedId == feedId)).map (·.guid)

/-- The read the *WorkerManager* path performs:
`DatabaseService.getFeedItems(feedId)` queries the `by-feedId-pubDate`
index with `IDBKeyRange.bound([feedId, new Date(0)], [feedId, new Date()])`
(both bounds inclusive), so only records with `0 ≤ pubDate ≤ now` are
visible — a future-dated or pre-epoch record escapes this read.  The
subsequent sort/slice in `getFeedItems` cannot change which guids the
`Set` receives and is dropped from the projection. -/
def boundedStoredGuids (s : ItemStore) (feedId : String) (now : Int) :
    List String :=
  (s.filter (fun y =>
    y.feedId == feedId && decide (0 ≤ y.pubDate) && decide (y.pubDate ≤ now))).map
    (·.guid)

/-- The dedup-and-write core of `WorkerManager.saveFeedItems`
(`src/unnamed/part_003`): read the feed's stored items once through the
date-bounded `DatabaseService.getFeedItems` (`now` is the read time), build
the guid set, keep the incoming items whose guid is absent from *that*
read, and `addFeedItems` them. -/
def saveFeedItemsStore (feedId : String) (items : List WItem)
    (s : ItemStore) (now : Int) : ItemStore :=
  let existingGuids := boundedStoredGuids s feedId now
  let newItems := items.filter (fun w => !existingGuids.contains w.guid)
  addFeedItems newItems s

/-- The surviving delta of `saveFeedItems` (the `newItems` local). -/
def saveFeedItemsDelta (feedId : String) (items : List WItem)
    (s : ItemStore) (now : Int) : List WItem :=
  items.filter (fun w => !(boundedStoredGuids s feedId now).contains w.guid)

/-- `RSSServiceWorker.performSaveNewFeedItems` (`src/unnamed/part_016`):
read the feed's stored items through the service worker's own
`getFeedItems` (`by-feedId` index `getAll`, unbounded — `storedGuids`),
drop incoming items with an already-stored guid, and `add` the rest — each
incoming record already carries the id `generateId()` gave it in
`parseRSSFeed`. -/
def performSaveNewFeedItems (feedId : String) (items : List StoredItem)
    (s : ItemStore) : ItemStore :=
  let existingGuids := storedGuids s feedId
  let newItems := items.filter (fun it => !existingGuids.contains it.guid)
  s ++ newItems

/-! ### Store invariants -/

/-- The §3 invariant: for a given `feedId`, no two stored items share a
`guid`. -/
def GuidUniquePerFeed (s : ItemStore) : Prop :=
  s.Pairwise fun a b => ¬(a.feedId = b.feedId ∧ a.guid = b.guid)

instance : DecidablePred GuidUniquePerFeed := fun s =>
  List.instDecidablePairwise s

/-- Structural IndexedDB property of a key-path store: record keys are
pairwise distinct. -/
def NodupIds (s : ItemStore) : Prop :=
  (s.map (·.id)).Nodup

/-- Every id reachable in the real store is either the canonical
`feedId + "-" + guid` of the `DatabaseService` path or a base-36
`generateId()` string, which never contains `'-'`. -/
def CanonOrDashless (y : StoredItem) : Prop :=
  y.id = dbItemId y.feedId y.guid ∨ (∀ c ∈ y.id.data, c ≠ '-')

instance (s : ItemStore) : Decidable (NodupIds s) := by
  unfold NodupIds
  infer_instance

instance (y : StoredItem) : Decidable (CanonOrDashless y) :=
  inferInstanceAs
    (Decidable (y.id = dbItemId y.feedId y.guid ∨ ∀ c ∈ y.id.data, c ≠ '-'))

/-! ### The service worker's `generateId` -/

/-- The base-36 digit alphabet of JS `Number.prototype.toString(36)`. -/
def base36Alphabet : List Char :=
  "0123456789abcdefghijklmnopqrstuvwxyz".data

/-- One base-36 digit. -/
def base36Char (n : Nat) : Char :=
  base36Alphabet.getD (n % 36) '0'

/-- JS `n.toString(36)` for a natural number (fuel-driven division loop). -/
def natToBase36Aux : Nat → Nat → List Char
  | 0, _ => []
  | fuel + 1, n =>
    if n < 36 then [base36Char n]
    else natToBase36Aux fuel (n / 36) ++ [base36Char (n % 36)]

/-- JS `n.toString(36)`. -/
def natToBase36 (n : Nat) : List Char :=
  natToBase36Aux (n + 1) n

/-- `RSSServiceWorker.generateId` (`src/unnamed/part_016`):
`Date.now().toString(36) + Math.random().toString(36).substr(2, 9)`;
`now` is the clock reading and `frac` the base-36 fraction digits that
`substr(2, 9)` keeps. -/
def generateId (now : Nat) (frac : List (Fin 36)) : String :=
  ⟨natToBase36 now ++ frac.map (fun d => base36Char d.val)⟩

/-! ### Retry controller of `RSSWorker.updateSingleFeed` (`src/unnamed/part_002`) -/

/-- `MAX_RETRY_ATTEMPTS` in `RSSWorker`. -/
def MAX_RETRY_ATTEMPTS : Nat := 3

/-- `RETRY_DELAY_BASE` in `RSSWorker` (milliseconds). -/
def RETRY_DELAY_BASE : Nat := 5000

/-- The distinct failure points of one `updateSingleFeed` attempt, in source
order: fetch abort (the 15 s timeout fires), non-2xx HTTP status, the
"looks like a feed" validation, `parser.parseString` rejection, and the
empty-items check. -/
inductive AttemptFail where
  | timeoutAbort (platformMsg : String)
  | http (status : Nat) (statusText : String)
  | invalidFormat
  | parse (parserMsg : String)
  | noItems
deriving Repr, DecidableEq

/-- The `error.message` each failure point produces, from the `throw new
Error(...)` sites of `updateSingleFeed`; an aborted fetch surfaces the
platform's own abort message. -/
def failMessage : AttemptFail → String
  | .timeoutAbort m => m
  | .http status statusText => "HTTP " ++ toString status ++ ": " ++ statusText
  | .invalidFormat => "Invalid RSS/Atom feed format"
  | .parse m => "Feed parsing failed: " ++ m
  | .noItems => "Feed contains no items"

/-- The "looks like a feed" validation: non-blank body containing one of the
`<rss` / `<feed` / `<atom` markers; its failure raises `invalidFormat`. -/
def looksLikeFeedXml (xmlText : String) : Bool :=
  !(trimStr xmlText).data.isEmpty &&
    (strIncludes xmlText "<rss" || strIncludes xmlText "<feed" ||
      strIncludes xmlText "<atom")

/-- The retry guard in the `catch` block:
`retryCount < this.MAX_RETRY_ATTEMPTS && !errorMessage.includes('parsing failed')`. -/
def retriesAfterFailure (retryCount : Nat) (errorMessage : String) : Bool :=
  decide (retryCount < MAX_RETRY_ATTEMPTS) &&
    !strIncludes errorMessage "parsing failed"

/-- Messages posted by the worker during one single-feed update, plus the
`setTimeout` delay recorded as `sleep`. -/
inductive WEvent where
  | progress (feedId : String) (progress : Nat) (status : Option String)
  | sleep (delayMs : Nat)
  | complete (feedId : String) (totalItems hiddenItems : Nat)
  | updateError (feedId : String) (error : String) (retryCount maxRetries : Nat)
deriving Repr, DecidableEq

/-- The `UPDATE_PROGRESS` events an attempt has already posted when a given
failure point is reached: the abort, HTTP and format checks sit between the
0% and 30% posts, the parser call and the empty-items check between 30% and
70%. -/
def failStageEvents (feedId : String) : AttemptFail → List WEvent
  | .timeoutAbort _ => [.progress feedId 0 none]
  | .http _ _ => [.progress feedId 0 none]
  | .invalidFormat => [.progress feedId 0 none]
  | .parse _ => [.progress feedId 0 none, .progress feedId 30 none]
  | .noItems => [.progress feedId 0 none, .progress feedId 30 none]

/-- What one cycle does to the `retryAttempts` entry of the feed:
`delete` on success, `set(feedId, retryCount)` on a final error. -/
inductive CounterAction where
  | cleared
  | setTo (retryCount : Nat)
deriving Repr, DecidableEq

/-- The `status` string of the intermediate retry report:
`` `Retrying in ${delay/1000}s... (${retryCount + 1}/${this.MAX_RETRY_ATTEMPTS})` ``. -/
def retryStatusText (delay retryCount : Nat) : String :=
  "Retrying in " ++ toString (delay / 1000) ++ "s... (" ++
    toString (retryCount + 1) ++ "/" ++ toString MAX_RETRY_ATTEMPTS ++ ")"

/-- The recursive retry loop of `updateSingleFeed`.  `attempt rc` is the
outcome of the attempt with `retryCount = rc` — `.ok (total, hidden)` for a
cycle that reaches `UPDATE_COMPLETE` with those counts, `.error` for a
failure point.  The fuel argument only bounds the recursion; the entry point
supplies enough for the retry ceiling. -/
def updateSingleFeedAux (feedId : String)
    (attempt : Nat → Except AttemptFail (Nat × Nat)) :
    Nat → Nat → List WEvent × CounterAction
  | 0, _ => ([], .cleared)
  | fuel + 1, retryCount =>
    match attempt retryCount with
    | .ok (total, hidden) =>
      ([.progress feedId 0 none, .progress feedId 30 none, .progress feedId 70 none,
        .progress feedId 100 none, .complete feedId total hidden], .cleared)
    | .error e =>
      let errorMessage := failMessage e
      if retriesAfterFailure retryCount errorMessage then
        let delay := RETRY_DELAY_BASE * 2 ^ retryCount
        let rest := updateSingleFeedAux feedId attempt fuel (retryCount + 1)
        (failStageEvents feedId e ++
          [.progress feedId 0 (some (retryStatusText delay retryCount)), .sleep delay] ++
          rest.1,
         rest.2)
      else
        (failStageEvents feedId e ++
          [.updateError feedId errorMessage retryCount MAX_RETRY_ATTEMPTS],
         .setTo retryCount)

/-- A single-feed update as triggered externally (`retryCount = 0`). -/
def updateSingleFeedRun (feedId : String)
    (attempt : Nat → Except AttemptFail (Nat × Nat)) : List WEvent × CounterAction :=
  updateSingleFeedAux feedId attempt (MAX_RETRY_ATTEMPTS + 1) 0

/-! ### Bulk update `RSSWorker.updateAllFeeds` (`src/unnamed/part_002`) -/

/-- A feed source, restricted to what `updateAllFeeds` consumes. -/
structure FeedSrc where
  id : String
  url : String
  isActive : Bool
deriving Repr, DecidableEq

/-- Bulk-level messages of `updateAllFeeds`. -/
inductive BulkEvent where
  | bulkProgress (progress totalFeeds completedFeeds : Nat)
  | feedsUpdated (totalFeeds completedFeeds : Nat)
deriving Repr, DecidableEq

/-- JS `Math.round((completed / total) * 100)` on exact rationals. -/
def jsRoundPct (completed total : Nat) : Nat :=
  (200 * completed + total) / (2 * total)

/-- The `for (i = 0; i < activeFeeds.length; i += concurrencyLimit)` slicing
loop, with the list's length as fuel. -/
def chunksOfAux (n : Nat) : Nat → List α → List (List α)
  | _, [] => []
  | 0, _ :: _ => []
  | fuel + 1, x :: xs => (x :: xs).take n :: chunksOfAux n fuel ((x :: xs).drop n)

/-- `chunks`: consecutive slices of size `n`. -/
def chunksOf (n : Nat) (l : List α) : List (List α) :=
  chunksOfAux n l.length l

/-- Processes a run of feeds, threading the shared `completed` counter:
each feed first runs its own `updateSingleFeed` messages (abstracted as
`update`, whose failure the wrapper catches and ignores), then the `finally`
block increments `completed` and posts the bulk progress message. -/
def runBatchFeeds (update : FeedSrc → List WEvent) (total : Nat) :
    List FeedSrc → Nat → List (WEvent ⊕ BulkEvent) × Nat
  | [], completed => ([], completed)
  | f :: rest, completed =>
    let next := completed + 1
    let tail := runBatchFeeds update total rest next
    ((update f).map Sum.inl ++
      Sum.inr (BulkEvent.bulkProgress (jsRoundPct next total) total next) :: tail.1,
     tail.2)

/-- `RSSWorker.updateAllFeeds`: filter to active feeds, slice into batches
of 3, run each batch's feeds concurrently (`Promise.all` — modelled by the
`reorder` parameter, an arbitrary per-batch completion order), then post the
final `FEEDS_UPDATED` summary with the counter's final value. -/
def updateAllFeeds (reorder : List FeedSrc → List FeedSrc)
    (update : FeedSrc → List WEvent) (feeds : List FeedSrc) :
    List (WEvent ⊕ BulkEvent) :=
  let activeFeeds := feeds.filter (·.isActive)
  let total := activeFeeds.length
  let chunks := chunksOf 3 activeFeeds
  let run := runBatchFeeds update total ((chunks.map reorder).flatten) 0
  Sum.inr (BulkEvent.bulkProgress 0 total 0) ::
    run.1 ++ [Sum.inr (BulkEvent.feedsUpdated total run.2)]

/-! ### `WorkerManager.saveFeedItems` instrumentation (`src/unnamed/part_003`) -/

/-- The calls `saveFeedItems` makes against `dbService`, in order. -/
inductive DbOp where
  | getFeedItems (feedId : String)
  | addItems (count : Nat)
  | updateLastUpdated (feedId : String)
deriving Repr, DecidableEq

/-- The store-operation trace of one `saveFeedItems` call: one
`getFeedItems` read (at clock reading `now`), one `addFeedItems` write when
the delta is non-empty, then the `lastUpdated` bump. -/
def saveFeedItemsOps (feedId : String) (items : List WItem)
    (s : ItemStore) (now : Int) : List DbOp :=
  let newItems := saveFeedItemsDelta feedId items s now
  DbOp.getFeedItems feedId ::
    ((if 0 < newItems.length then [DbOp.addItems newItems.length] else []) ++
      [DbOp.updateLastUpdated feedId])

/-- `DatabaseService.updateFeedLastUpdated`: set the feed's `lastUpdated`
to the current clock reading. -/
def updateFeedLastUpdated (feedId : String) (now : Nat)
    (feeds : List (String × Nat)) : List (String × Nat) :=
  feeds.map fun p => if p.1 == feedId then (p.1, now) else p

/-- The `rss-worker-complete` event detail `saveFeedItems` dispatches:
the delta size plus the counts forwarded unchanged from the worker's
`UPDATE_COMPLETE` payload. -/
structure WorkerCompleteDetail where
  feedId : String
  newItems : Nat
  totalItems : Nat
  hiddenItems : Nat
deriving Repr, DecidableEq

/-- Assembles the `rss-worker-complete` detail for one persist call. -/
def saveFeedItemsEvent (report : CompleteReport) (items : List WItem)
    (s : ItemStore) (now : Int) : WorkerCompleteDetail :=
  { feedId := report.feedId
    newItems := (saveFeedItemsDelta report.feedId items s now).length
    totalItems := report.totalItems
    hiddenItems := report.hiddenItems }

/-! ### The cross-context gate (`src/unnamed/part_003`, `src/unnamed/part_016`) -/

/-- A parsed item that has a title but no link. -/
def titleOnlyItem : ParsedItem :=
  ⟨some "Some headline", none, none, none, none, some "", some "g", none⟩

/-- C10 counterexample: the claim says an item possessing at least one of
title/link is kept, but `updateSingleFeed` filters with
`item.title && item.link`, so an item with a title and no link is dropped:
`titleOnlyItem` has a truthy title yet is removed by the filter. -/
theorem c10_item_with_title_only_is_dropped :
    List.filter keepsParsedItem [titleOnlyItem] = [] ∧
      (jsTruthy titleOnlyItem.title || jsTruthy titleOnlyItem.link) = true := by
  decide

/-- C10 (amended): during normalization an incoming parsed item is dropped
exactly when it lacks a title **or** lacks a link — it is kept iff both a
title and a link are present (JS-truthy). -/
theorem c10_kept_iff_title_and_link (parsed : List ParsedItem) (it : ParsedItem) :
    it ∈ parsed.filter keepsParsedItem ↔
      (it ∈ parsed ∧ jsTruthy it.title = true ∧ jsTruthy it.link = true) := by
  simp [List.mem_filter, keepsParsedItem, Bool.and_eq_true, and_assoc]

/-! ### C8 — wildcard matching modes -/

/-- The item whose only content is the single word `biotech`. -/
def biotechItem : ParsedItem :=
  ⟨some "biotech", some "", none, none, none, some "", some "", none⟩

/-- The item whose only content is the single word `technology`. -/
def technologyItem : ParsedItem :=
  ⟨some "technology", some "", none, none, none, some "", some "", none⟩

/-- The item with text `This is SPAMMY content`. -/
def spammyItem : ParsedItem :=
  ⟨some "This is SPAMMY content", some "", none, none, none, some "", some "", none⟩

/-- The item whose only content is the word `said`. -/
def saidItem : ParsedItem :=
  ⟨some "said", some "", none, none, none, some "", some "", none⟩

/-- C8: the `word*` and `*word` modes of `shouldHideContent` behave as
substring tests, not prefix/suffix tests, contradicting the source's own
inline comments ("Prefix matching: word* -> starts with word", "Suffix
matching: *word -> ends with word"): rule `tech*` hides `biotech` even
though `biotech` does not start with `tech`, and rule `*tech` hides
`technology` even though `technology` does not end with `tech`.  The
substring, case-insensitivity and word-boundary behaviors of the claim do
hold. -/
theorem c8_wildcard_modes_are_substring_tests :
    shouldHideContent biotechItem ["tech*"] = true ∧
      List.isPrefixOf "tech".data "biotech".data = false ∧
      shouldHideContent technologyItem ["*tech"] = true ∧
      List.isSuffixOf "tech".data "technology".data = false ∧
      shouldHideContent spammyItem ["*spam*"] = true ∧
      shouldHideContent saidItem ["ai"] = false := by
  decide

/-! ### C9 — which fields feed the hidden decision -/

/-- Modelled from the claim's words: the concatenation of only the content
fields (title, description, content, author) of the item, for comparison
with the code's `combineStringProperties`. -/
def claimedContentFieldsText (it : ParsedItem) : String :=
  combineStringProperties
    [ it.title.elim JsValue.undef JsValue.str,
      it.description.elim JsValue.undef JsValue.str,
      it.content.elim JsValue.undef JsValue.str,
      it.author.elim JsValue.undef JsValue.str ]

/-- The hidden decision as the claim states it: evaluated only against the
content fields. -/
def shouldHideContentClaimed (article : ParsedItem) (ignoredWords : List String) : Bool :=
  if ignoredWords.length = 0 then false
  else
    let textToCheck := lowerStr (claimedContentFieldsText article)
    ignoredWords.any fun word => matchesIgnoredWord textToCheck word

/-- An item whose content fields are benign but whose `guid` contains
`spam`. -/
def guidSpamItem : ParsedItem :=
  ⟨some "hello", some "", none, none, none, some "", some "xspamx", none⟩

/-- C9 counterexample: the claim says ids are never consulted, but
`combineStringProperties` keeps *every* string-valued property, so the rule
`*spam*` hides an item whose only occurrence of `spam` is inside its
`guid`; evaluating only title/description/content/author (the claim's field
list) would not hide it. -/
theorem c9_guid_participates_in_matching :
    shouldHideContent guidSpamItem ["*spam*"] = true ∧
      shouldHideContentClaimed guidSpamItem ["*spam*"] = false := by
  decide

/-- C9 (amended): the hidden decision is evaluated against the lowercased
concatenation of every string-typed property of the raw parsed item — for a
fully-populated item that is title, link, description, content, author, the
raw `pubDate` string and the `guid`, in declaration order, while the
non-string `categories` array is excluded; the first matching rule
short-circuits the `some`-fold to `true`, and an empty rule set always
yields `false`. -/
theorem c9_text_is_all_string_fields
    (t l d c a p g : String) (cats : Option (List String)) (it : ParsedItem)
    (word : String) (rest : List String) :
    combineStringProperties
        (parsedItemValues ⟨some t, some l, some d, some c, some a, some p, some g, cats⟩) =
      t ++ " " ++ (l ++ " " ++ (d ++ " " ++ (c ++ " " ++ (a ++ " " ++ (p ++ " " ++ g))))) ∧
    (matchesIgnoredWord
        (lowerStr (combineStringProperties (parsedItemValues it))) word = true →
      shouldHideContent it (word :: rest) = true) ∧
    shouldHideContent it [] = false := by
  refine ⟨?_, ?_, rfl⟩
  · cases cats <;> rfl
  · intro h
    simp [shouldHideContent, List.any_cons, h]

/-- Witness for the hypotheses of `c9_text_is_all_string_fields`: the
matcher fires on `guidSpamItem`'s text, so the short-circuit conclusion
applies there concretely. -/
theorem c9_text_is_all_string_fields_witness :
    shouldHideContent guidSpamItem ("*spam*" :: ["other"]) = true :=
  (c9_text_is_all_string_fields "t" "l" "d" "c" "a" "p" "g" none guidSpamItem
    "*spam*" ["other"]).2.1 (by decide)

/-! ### C2 — stored-item identity -/

/-- Every base-36 digit is drawn from `0-9a-z`, hence is never `'-'`. -/
theorem base36Char_ne_dash (n : Nat) : base36Char n ≠ '-' := by
  have hlt : n % 36 < 36 := Nat.mod_lt _ (by decide)
  have h : ∀ m : Nat, m < 36 → base36Alphabet.getD m '0' ≠ '-' := by decide
  exact h _ hlt

/-- No character of a base-36 rendering is `'-'`. -/
theorem natToBase36Aux_no_dash (fuel n : Nat) :
    ∀ c ∈ natToBase36Aux fuel n, c ≠ '-' := by
  induction fuel generalizing n with
  | zero => intro c hc; simp [natToBase36Aux] at hc
  | succ fuel ih =>
    intro c hc
    simp only [natToBase36Aux] at hc
    split at hc
    · simp only [List.mem_singleton] at hc
      exact hc ▸ base36Char_ne_dash n
    · rcases List.mem_append.mp hc with h | h
      · exact ih (n / 36) c h
      · simp only [List.mem_singleton] at h
        exact h ▸ base36Char_ne_dash (n % 36)

/-- `generateId` output never contains the character `'-'`. -/
theorem generateId_no_dash (now : Nat) (frac : List (Fin 36)) :
    ∀ c ∈ (generateId now frac).data, c ≠ '-' := by
  intro c hc
  rcases List.mem_append.mp hc with h | h
  · exact natToBase36Aux_no_dash (now + 1) now c h
  · rcases List.mem_map.mp h with ⟨d, _, rfl⟩
    exact base36Char_ne_dash d.val

/-- The canonical database identity always contains `'-'`. -/
theorem dash_mem_dbItemId (feedId guid : String) :
    '-' ∈ (dbItemId feedId guid).data := by
  show '-' ∈ ((feedId ++ "-") ++ guid).data
  rw [String.data_append, String.data_append]
  exact List.mem_append.mpr (.inl (List.mem_append.mpr (.inr (by decide))))

/-- Appending to the same canonical stem is injective in the guid. -/
theorem dbItemId_guid_inj {feedId a b : String}
    (h : dbItemId feedId a = dbItemId feedId b) : a = b := by
  have hd : ((feedId ++ "-") ++ a).data = ((feedId ++ "-") ++ b).data := by
    simpa [dbItemId] using congrArg String.data h
  rw [String.data_append, String.data_append] at hd
  exact String.ext (List.append_cancel_left hd)

/-- A concrete `generateId` result, as `RSSServiceWorker.parseRSSFeed`
stamps on an item (clock reading 1234567, three random base-36 digits). -/
def sampleSwId : String :=
  generateId 1234567 [⟨10, by decide⟩, ⟨11, by decide⟩, ⟨12, by decide⟩]

/-- The concrete item the service worker persists for feed `feed1`,
guid `guid1`. -/
def sampleSwItem : StoredItem :=
  { id := sampleSwId, feedId := "feed1", guid := "guid1", isHidden := false
    pubDate := 0 }

/-- C2 counterexample: an item persisted by
`RSSServiceWorker.performSaveNewFeedItems` is stored exactly as built —
with the `generateId()` identity, which differs from
`feedId + "-" + guid`. -/
theorem c2_sw_identity_not_feedId_dash_guid :
    performSaveNewFeedItems "feed1" [sampleSwItem] [] = [sampleSwItem] ∧
      sampleSwItem.id ≠ dbItemId sampleSwItem.feedId sampleSwItem.guid := by
  decide

/-- C2 (amended): items persisted through `DatabaseService.addFeedItems`
(the `WorkerManager` path) are keyed by exactly `feedId + "-" + guid`, so
there the same guid in any two cycles maps to the same stored identity; but
the service-worker persist path stores items under `generateId()` values,
which never contain `'-'` and therefore never coincide with any
`feedId + "-" + guid`. -/
theorem c2_identity_by_persist_path :
    (∀ w : WItem, (mkDbStored w).id = dbItemId w.feedId w.guid) ∧
    (∀ w w' : WItem, w.feedId = w'.feedId → w.guid = w'.guid →
      (mkDbStored w).id = (mkDbStored w').id) ∧
    (∀ (now : Nat) (frac : List (Fin 36)) (feedId guid : String),
      generateId now frac ≠ dbItemId feedId guid) := by
  refine ⟨fun _ => rfl, ?_, ?_⟩
  · intro w w' hf hg
    simp [mkDbStored, dbItemId, hf, hg]
  · intro now frac feedId guid h
    exact generateId_no_dash now frac '-' (h ▸ dash_mem_dbItemId feedId guid) rfl

/-- Witness for `c2_identity_by_persist_path`: the stability conclusion at
two concrete worker items sharing feed and guid. -/
theorem c2_identity_by_persist_path_witness :
    (mkDbStored ⟨"f", "g", false, 0⟩).id = (mkDbStored ⟨"f", "g", true, 7⟩).id :=
  c2_identity_by_persist_path.2.1 ⟨"f", "g", false, 0⟩ ⟨"f", "g", true, 7⟩ rfl rfl

/-! ### C3 — which failures are retried -/

/-- The empty needle occurs in every haystack. -/
theorem containsSub_nil (l : List Char) : containsSub l [] = true := by
  induction l with
  | nil => rfl
  | cons c r ih => simp [containsSub, ih]

/-- A prefix of `h` is also a prefix of `h ++ r`. -/
theorem isPrefixOf_append_right (n h r : List Char)
    (hp : n.isPrefixOf h = true) : n.isPrefixOf (h ++ r) = true := by
  induction n generalizing h with
  | nil => cases h <;> cases r <;> rfl
  | cons a n' ih =>
    cases h with
    | nil => simp [List.isPrefixOf] at hp
    | cons b h' =>
      simp only [List.isPrefixOf, List.cons_append, Bool.and_eq_true] at hp ⊢
      exact ⟨hp.1, ih h' hp.2⟩

/-- An occurrence in `hay` survives appending on the right. -/
theorem containsSub_append_right (hay rest needle : List Char)
    (h : containsSub hay needle = true) :
    containsSub (hay ++ rest) needle = true := by
  induction hay with
  | nil =>
    have hn : needle = [] := by
      cases needle with
      | nil => rfl
      | cons c t => simp [containsSub] at h
    subst hn
    simpa using containsSub_nil rest
  | cons c r ih =>
    simp only [containsSub, Bool.or_eq_true] at h
    rcases h with h | h
    · simp only [List.cons_append, containsSub, Bool.or_eq_true]
      exact .inl (isPrefixOf_append_right _ _ _ h)
    · simp only [List.cons_append, containsSub, Bool.or_eq_true]
      exact .inr (ih h)

/-- Every parser-failure message contains the substring `parsing failed`,
so `updateSingleFeed`'s retry guard rejects it. -/
theorem parse_message_contains_parsing_failed (m : String) :
    strIncludes (failMessage (.parse m)) "parsing failed" = true := by
  show containsSub ("Feed parsing failed: ".data ++ m.data) "parsing failed".data = true
  exact containsSub_append_right _ _ _ (by decide)

/-- A feed whose first attempt hits the format validation, then succeeds. -/
def invalidFormatThenOk : Nat → Except AttemptFail (Nat × Nat) :=
  fun retryCount => if retryCount = 0 then .error .invalidFormat else .ok (5, 0)

/-- A feed whose every attempt fails in the XML parser. -/
def alwaysParseFail : Nat → Except AttemptFail (Nat × Nat) :=
  fun _ => .error (.parse "Non-whitespace before first tag.")

/-- Recognizes the `setTimeout` steps of a trace. -/
def isSleepEvent : WEvent → Bool
  | .sleep _ => true
  | _ => false

/-- Recognizes the final `UPDATE_ERROR` messages of a trace. -/
def isErrorEvent : WEvent → Bool
  | .updateError .. => true
  | _ => false

/-- C3 counterexample: the retry guard is
`!errorMessage.includes('parsing failed')`, which is the *reverse* of the
claim for two failure classes — an `InvalidFormat` failure (body not
feed-shaped) is retried (one scheduled retry, no error report), while an
XML `ParseError` is terminal (no retry is scheduled and the final error is
reported immediately at attempt 0). -/
theorem c3_invalid_format_retried_parse_terminal :
    ((updateSingleFeedRun "f" invalidFormatThenOk).1.filter isSleepEvent).length = 1 ∧
      ((updateSingleFeedRun "f" invalidFormatThenOk).1.filter isErrorEvent).length = 0 ∧
      (updateSingleFeedRun "f" alwaysParseFail).1.filter isSleepEvent = [] ∧
      (updateSingleFeedRun "f" alwaysParseFail).1.getLast? =
        some (.updateError "f" "Feed parsing failed: Non-whitespace before first tag."
          0 MAX_RETRY_ATTEMPTS) := by
  decide

/-- C3 (amended): a single-feed failure below the ceiling is retried
exactly when its message does not contain `parsing failed`: timeout-abort
and HTTP-status failures (whose messages lack that substring), the
`InvalidFormat` failure and the zero-usable-items failure are all retried,
while an XML parse failure is terminal — `updateSingleFeed` reports the
final error immediately at attempt 0 with the ceiling attached — and
nothing is retried once the ceiling is reached. -/
theorem c3_retry_decision
    (retryCount : Nat) (hrc : retryCount < MAX_RETRY_ATTEMPTS)
    (platformMsg : String)
    (hpm : strIncludes platformMsg "parsing failed" = false)
    (status : Nat) (statusText : String)
    (hht : strIncludes (failMessage (.http status statusText)) "parsing failed" = false)
    (feedId m : String) (attempt : Nat → Except AttemptFail (Nat × Nat))
    (hatt : attempt 0 = .error (.parse m)) :
    retriesAfterFailure retryCount (failMessage (.timeoutAbort platformMsg)) = true ∧
    retriesAfterFailure retryCount (failMessage (.http status statusText)) = true ∧
    retriesAfterFailure retryCount (failMessage .invalidFormat) = true ∧
    retriesAfterFailure retryCount (failMessage .noItems) = true ∧
    (∀ m' : String, retriesAfterFailure retryCount (failMessage (.parse m')) = false) ∧
    (∀ msg : String, retriesAfterFailure MAX_RETRY_ATTEMPTS msg = false) ∧
    updateSingleFeedRun feedId attempt =
      ([.progress feedId 0 none, .progress feedId 30 none,
        .updateError feedId ("Feed parsing failed: " ++ m) 0 MAX_RETRY_ATTEMPTS],
       .setTo 0) := by
  have hterm : ∀ m' : String,
      retriesAfterFailure retryCount (failMessage (.parse m')) = false := by
    intro m'
    simp [retriesAfterFailure, parse_message_contains_parsing_failed m']
  refine ⟨?_, ?_, ?_, ?_, hterm, ?_, ?_⟩
  · simp [retriesAfterFailure, failMessage, hpm, hrc]
  · simp [retriesAfterFailure, hht, hrc]
  · simp [retriesAfterFailure, hrc, failMessage]
    decide
  · simp [retriesAfterFailure, hrc, failMessage]
    decide
  · intro msg
    simp [retriesAfterFailure]
  · have hguard : retriesAfterFailure 0 ("Feed parsing failed: " ++ m) = false := by
      simp [retriesAfterFailure,
        show strIncludes ("Feed parsing failed: " ++ m) "parsing failed" = true from
          parse_message_contains_parsing_failed m]
    simp [updateSingleFeedRun, MAX_RETRY_ATTEMPTS, updateSingleFeedAux, hatt, hguard,
      failStageEvents, failMessage]

/-- Witness for `c3_retry_decision` at retry count 0, a concrete abort
message, HTTP 503, and a concrete parse failure. -/
theorem c3_retry_decision_witness :
    retriesAfterFailure 0 (failMessage (.timeoutAbort "The operation was aborted.")) = true ∧
    retriesAfterFailure 0 (failMessage (.http 503 "Service Unavailable")) = true ∧
    retriesAfterFailure 0 (failMessage .invalidFormat) = true ∧
    retriesAfterFailure 0 (failMessage .noItems) = true ∧
    (∀ m' : String, retriesAfterFailure 0 (failMessage (.parse m')) = false) ∧
    (∀ msg : String, retriesAfterFailure MAX_RETRY_ATTEMPTS msg = false) ∧
    updateSingleFeedRun "feed9" alwaysParseFail =
      ([.progress "feed9" 0 none, .progress "feed9" 30 none,
        .updateError "feed9"
          ("Feed parsing failed: " ++ "Non-whitespace before first tag.")
          0 MAX_RETRY_ATTEMPTS],
       .setTo 0) :=
  c3_retry_decision 0 (by decide) "The operation was aborted." (by decide)
    503 "Service Unavailable" (by decide) "feed9"
    "Non-whitespace before first tag." alwaysParseFail rfl

/-! ### C4 — backoff schedule and retry ceiling -/

/-- Projects the `setTimeout` delay out of a trace step. -/
def sleepDelayOf : WEvent → Option Nat
  | .sleep d => some d
  | _ => none

/-- Projects the human retry status out of a trace step (the only progress
messages carrying a status string are the retry reports). -/
def retryStatusOf : WEvent → Option String
  | .progress _ _ (some s) => some s
  | _ => none

/-- Attempt-stage progress messages contain no `setTimeout` step. -/
theorem failStage_no_sleep (f : String) (e : AttemptFail) :
    (failStageEvents f e).filterMap sleepDelayOf = [] := by
  cases e <;> rfl

/-- Attempt-stage progress messages carry no status string. -/
theorem failStage_no_status (f : String) (e : AttemptFail) :
    (failStageEvents f e).filterMap retryStatusOf = [] := by
  cases e <;> rfl

/-- One transient failure below the ceiling: the loop posts the stage
events, the retry report, schedules the backoff and recurses. -/
theorem aux_transient_step (f : String)
    (attempt : Nat → Except AttemptFail (Nat × Nat)) (fuel rc : Nat)
    (e : AttemptFail) (ha : attempt rc = .error e)
    (ht : strIncludes (failMessage e) "parsing failed" = false)
    (hrc : rc < MAX_RETRY_ATTEMPTS) :
    updateSingleFeedAux f attempt (fuel + 1) rc =
      (failStageEvents f e ++
        [.progress f 0 (some (retryStatusText (RETRY_DELAY_BASE * 2 ^ rc) rc)),
         .sleep (RETRY_DELAY_BASE * 2 ^ rc)] ++
        (updateSingleFeedAux f attempt fuel (rc + 1)).1,
       (updateSingleFeedAux f attempt fuel (rc + 1)).2) := by
  simp [updateSingleFeedAux, ha, retriesAfterFailure, ht, hrc]

/-- A failure at the ceiling: the loop posts the final error and records
the exhausted counter. -/
theorem aux_exhausted_step (f : String)
    (attempt : Nat → Except AttemptFail (Nat × Nat)) (fuel : Nat)
    (e : AttemptFail) (ha : attempt MAX_RETRY_ATTEMPTS = .error e) :
    updateSingleFeedAux f attempt (fuel + 1) MAX_RETRY_ATTEMPTS =
      (failStageEvents f e ++
        [.updateError f (failMessage e) MAX_RETRY_ATTEMPTS MAX_RETRY_ATTEMPTS],
       .setTo MAX_RETRY_ATTEMPTS) := by
  simp only [MAX_RETRY_ATTEMPTS] at ha ⊢
  simp [updateSingleFeedAux, ha, retriesAfterFailure, MAX_RETRY_ATTEMPTS]

/-- C4: for a feed whose every attempt fails transiently, the engine
schedules exactly three retries with delays `5000 * 2^attempt` ms
(5 s, 10 s, 20 s), each preceded by an intermediate status carrying the
delay and the attempt number; the final error carries attempt count 3 and
ceiling 3; no further `setTimeout` follows it; the retry counter is written
as `setTo 3` (never cleared) on exhaustion, and is cleared exactly by a
successful cycle. -/
theorem c4_backoff_and_ceiling (feedId : String) (kinds : Nat → AttemptFail)
    (attempt : Nat → Except AttemptFail (Nat × Nat))
    (hatt : ∀ rc, attempt rc = .error (kinds rc))
    (htrans : ∀ rc, strIncludes (failMessage (kinds rc)) "parsing failed" = false) :
    (updateSingleFeedRun feedId attempt).1.filterMap sleepDelayOf =
        [5000, 10000, 20000] ∧
    (updateSingleFeedRun feedId attempt).1.filterMap retryStatusOf =
        ["Retrying in 5s... (1/3)", "Retrying in 10s... (2/3)",
         "Retrying in 20s... (3/3)"] ∧
    (updateSingleFeedRun feedId attempt).1.getLast? =
        some (.updateError feedId (failMessage (kinds 3)) 3 MAX_RETRY_ATTEMPTS) ∧
    (updateSingleFeedRun feedId attempt).2 = .setTo 3 ∧
    CounterAction.setTo 3 ≠ CounterAction.cleared ∧
    (∀ (attempt' : Nat → Except AttemptFail (Nat × Nat)) (total hidden : Nat),
      attempt' 0 = .ok (total, hidden) →
        (updateSingleFeedRun feedId attempt').2 = .cleared) := by
  have e0 : updateSingleFeedAux feedId attempt 4 0 =
      (failStageEvents feedId (kinds 0) ++
        [.progress feedId 0 (some (retryStatusText (RETRY_DELAY_BASE * 2 ^ 0) 0)),
         .sleep (RETRY_DELAY_BASE * 2 ^ 0)] ++
        (updateSingleFeedAux feedId attempt 3 1).1,
       (updateSingleFeedAux feedId attempt 3 1).2) :=
    aux_transient_step feedId attempt 3 0 (kinds 0) (hatt 0) (htrans 0) (by decide)
  have e1 : updateSingleFeedAux feedId attempt 3 1 =
      (failStageEvents feedId (kinds 1) ++
        [.progress feedId 0 (some (retryStatusText (RETRY_DELAY_BASE * 2 ^ 1) 1)),
         .sleep (RETRY_DELAY_BASE * 2 ^ 1)] ++
        (updateSingleFeedAux feedId attempt 2 2).1,
       (updateSingleFeedAux feedId attempt 2 2).2) :=
    aux_transient_step feedId attempt 2 1 (kinds 1) (hatt 1) (htrans 1) (by decide)
  have e2 : updateSingleFeedAux feedId attempt 2 2 =
      (failStageEvents feedId (kinds 2) ++
        [.progress feedId 0 (some (retryStatusText (RETRY_DELAY_BASE * 2 ^ 2) 2)),
         .sleep (RETRY_DELAY_BASE * 2 ^ 2)] ++
        (updateSingleFeedAux feedId attempt 1 3).1,
       (updateSingleFeedAux feedId attempt 1 3).2) :=
    aux_transient_step feedId attempt 1 2 (kinds 2) (hatt 2) (htrans 2) (by decide)
  have e3 : updateSingleFeedAux feedId attempt 1 3 =
      (failStageEvents feedId (kinds 3) ++
        [.updateError feedId (failMessage (kinds 3)) MAX_RETRY_ATTEMPTS
          MAX_RETRY_ATTEMPTS],
       .setTo MAX_RETRY_ATTEMPTS) :=
    aux_exhausted_step feedId attempt 0 (kinds 3) (hatt 3)
  have hrun : updateSingleFeedRun feedId attempt =
      (failStageEvents feedId (kinds 0) ++
        [.progress feedId 0 (some (retryStatusText (RETRY_DELAY_BASE * 2 ^ 0) 0)),
         .sleep (RETRY_DELAY_BASE * 2 ^ 0)] ++
        (failStageEvents feedId (kinds 1) ++
          [.progress feedId 0 (some (retryStatusText (RETRY_DELAY_BASE * 2 ^ 1) 1)),
           .sleep (RETRY_DELAY_BASE * 2 ^ 1)] ++
          (failStageEvents feedId (kinds 2) ++
            [.progress feedId 0 (some (retryStatusText (RETRY_DELAY_BASE * 2 ^ 2) 2)),
             .sleep (RETRY_DELAY_BASE * 2 ^ 2)] ++
            (failStageEvents feedId (kinds 3) ++
              [.updateError feedId (failMessage (kinds 3)) MAX_RETRY_ATTEMPTS
                MAX_RETRY_ATTEMPTS]))),
       .setTo MAX_RETRY_ATTEMPTS) := by
    show updateSingleFeedAux feedId attempt 4 0 = _
    rw [e0, e1, e2, e3]
  refine ⟨?_, ?_, ?_, ?_, by decide, ?_⟩
  · rw [hrun]
    simp [List.filterMap_append, failStage_no_sleep, sleepDelayOf, RETRY_DELAY_BASE]
  · rw [hrun]
    simp [List.filterMap_append, failStage_no_status, retryStatusOf, sleepDelayOf]
    refine ⟨?_, ?_, ?_⟩ <;> decide
  · rw [hrun]
    rw [← List.head?_reverse]
    simp [List.reverse_append, MAX_RETRY_ATTEMPTS]
  · rw [hrun]
    rfl
  · intro attempt' total hidden h
    simp [updateSingleFeedRun, updateSingleFeedAux, h]

/-- Witness for `c4_backoff_and_ceiling`: a feed whose every attempt fails
with HTTP 500, whose message never contains `parsing failed`. -/
theorem c4_backoff_and_ceiling_witness :
    (updateSingleFeedRun "feed1" (fun _ => .error (.http 500 "boom"))).1.filterMap
        sleepDelayOf = [5000, 10000, 20000] ∧
    (updateSingleFeedRun "feed1" (fun _ => .error (.http 500 "boom"))).2 = .setTo 3 := by
  have htr : ∀ rc : Nat,
      strIncludes (failMessage ((fun _ => AttemptFail.http 500 "boom") rc))
        "parsing failed" = false := fun _ => by
    show strIncludes (failMessage (AttemptFail.http 500 "boom")) "parsing failed" = false
    decide
  have h := c4_backoff_and_ceiling "feed1" (fun _ => .http 500 "boom")
    (fun _ => .error (.http 500 "boom")) (fun _ => rfl) htr
  exact ⟨h.1, h.2.2.2.1⟩

/-! ### Bounded and unbounded store reads -/

/-- Membership in a feed's complete stored guid list. -/
theorem mem_storedGuids {s : ItemStore} {f g : String} :
    g ∈ storedGuids s f ↔ ∃ z ∈ s, z.feedId = f ∧ z.guid = g := by
  simp only [storedGuids, List.mem_map, List.mem_filter, beq_iff_eq]
  constructor
  · rintro ⟨z, ⟨hz, hf⟩, rfl⟩
    exact ⟨z, hz, hf, rfl⟩
  · rintro ⟨z, hz, hf, rfl⟩
    exact ⟨z, ⟨hz, hf⟩, rfl⟩

/-- Membership in the date-bounded `DatabaseService.getFeedItems` read:
only records with `0 ≤ pubDate ≤ now` are visible. -/
theorem mem_boundedStoredGuids {s : ItemStore} {f g : String} {now : Int} :
    g ∈ boundedStoredGuids s f now ↔
      ∃ z ∈ s, z.feedId = f ∧ 0 ≤ z.pubDate ∧ z.pubDate ≤ now ∧ z.guid = g := by
  simp only [boundedStoredGuids, List.mem_map, List.mem_filter,
    Bool.and_eq_true, beq_iff_eq, decide_eq_true_eq]
  constructor
  · rintro ⟨z, ⟨hz, ⟨hf, h0⟩, hn⟩, rfl⟩
    exact ⟨z, hz, hf, h0, hn, rfl⟩
  · rintro ⟨z, hz, hf, h0, hn, rfl⟩
    exact ⟨z, ⟨hz, ⟨hf, h0⟩, hn⟩, rfl⟩

/-- Whatever the bounded read sees is among the feed's stored guids. -/
theorem boundedStoredGuids_subset {s : ItemStore} {f : String} {now : Int} :
    ∀ g ∈ boundedStoredGuids s f now, g ∈ storedGuids s f := by
  intro g hg
  rcases mem_boundedStoredGuids.mp hg with ⟨z, hz, hf, _, _, rfl⟩
  exact mem_storedGuids.mpr ⟨z, hz, hf, rfl⟩

/-- When every stored item of the feed is date-visible at the read time,
the bounded read coincides with the complete guid set. -/
theorem boundedStoredGuids_eq_of_visible {s : ItemStore} {f : String} {now : Int}
    (h : ∀ y ∈ s, y.feedId = f → 0 ≤ y.pubDate ∧ y.pubDate ≤ now) :
    boundedStoredGuids s f now = storedGuids s f := by
  unfold boundedStoredGuids storedGuids
  congr 1
  apply List.filter_congr
  intro y hy
  by_cases hf : y.feedId = f
  · have hb := h y hy hf
    simp [hf, hb.1, hb.2]
  · have hb : (y.feedId == f) = false := beq_eq_false_iff_ne.mpr hf
    rw [hb]
    simp

/-! ### C1 — one persist cycle, and the example `{a,b}` + `{b,c,d}` -/

/-- Recognizes the store reads in a `saveFeedItems` operation trace. -/
def isReadOp : DbOp → Bool
  | .getFeedItems _ => true
  | _ => false

/-- Stored state before the example cycle: feed `f1` holds guids `a`, `b`,
both date-visible (pubDate 0). -/
def c1Store : ItemStore :=
  [mkDbStored ⟨"f1", "a", false, 0⟩, mkDbStored ⟨"f1", "b", false, 0⟩]

/-- Rule set of the example: hide anything containing `spam`. -/
def c1Rules : List String := ["*spam*"]

/-- Fetched item with guid `b` (already stored); its title matches the
ignored-word rule. -/
def c1ParsedB : ParsedItem :=
  ⟨some "spam alert", some "http://x/b", none, none, none, some "", some "b", none⟩

/-- Fetched item with fresh guid `c`, matching no rule. -/
def c1ParsedC : ParsedItem :=
  ⟨some "hello", some "http://x/c", none, none, none, some "", some "c", none⟩

/-- Fetched item with fresh guid `d`, matching no rule. -/
def c1ParsedD : ParsedItem :=
  ⟨some "world", some "http://x/d", none, none, none, some "", some "d", none⟩

/-- The worker's converted items for the example fetch `{b, c, d}`
(every parsed date resolves to 100 ms, within the read bound). -/
def c1Items : List WItem :=
  workerProcessItems "f1" c1Rules (fun _ => "") (fun _ => 100)
    [c1ParsedB, c1ParsedC, c1ParsedD]

/-- The worker's `UPDATE_COMPLETE` payload for the example fetch. -/
def c1Report : CompleteReport := mkCompleteReport "f1" c1Items

/-- A store holding one record of feed `f1` with guid `e` whose `pubDate`
(5000 ms) lies after the read time (1000 ms) — e.g. written by the service
worker from a feed carrying a future date. -/
def c1FutureStore : ItemStore := [⟨"k2f", "f1", "e", false, 5000⟩]

/-- An incoming worker item with the already-stored guid `e`. -/
def c1IncomingE : WItem := ⟨"f1", "e", false, 100⟩

/-- C1 counterexample: in the example cycle (stored `{a,b}`, fetched
`{b,c,d}`, rule `*spam*` matching only the already-stored `b`), the
persisted delta is exactly `{c,d}` and `totalItems = 3`, but the completion
report's `hiddenItems` is `1` — it counts matches among **all** fetched
items, not among the persisted delta `{c,d}`, whose matching count is `0`.
Moreover "stores exactly those incoming items whose guid is not already
present" fails: guid `e` is already stored for the feed, yet because its
record's `pubDate` (5000) exceeds the read time (1000) the date-bounded
`getFeedItems` read misses it and the incoming `e` lands in the delta. -/
theorem c1_hidden_count_scope_mismatch :
    (saveFeedItemsDelta "f1" c1Items c1Store 1000).map (·.guid) = ["c", "d"] ∧
      c1Report.totalItems = 3 ∧
      (saveFeedItemsEvent c1Report c1Items c1Store 1000).hiddenItems = 1 ∧
      ((saveFeedItemsDelta "f1" c1Items c1Store 1000).filter (·.isHidden)).length = 0 ∧
      (saveFeedItemsEvent c1Report c1Items c1Store 1000).hiddenItems ≠
        ((saveFeedItemsDelta "f1" c1Items c1Store 1000).filter (·.isHidden)).length ∧
      "e" ∈ storedGuids c1FutureStore "f1" ∧
      (saveFeedItemsDelta "f1" [c1IncomingE] c1FutureStore 1000).map (·.guid) =
        ["e"] := by
  decide

/-- C1 (amended): the persist step reads the feed's stored item set exactly
once per cycle (the read is the first store operation and the `lastUpdated`
bump the last) through the date-bounded `getFeedItems` — a record is
visible to the dedup iff its `pubDate` lies between the epoch and the read
time — and stores exactly the incoming items whose guid is absent from
*that* read, in the incoming order (the delta is a sublist of the incoming
list); in the example with date-visible stored `{a,b}`, the delta is
`{c,d}`, `lastUpdated` advances, `totalItems = 3`, and `hiddenItems` is the
ignored-word match count among **all** fetched items `{b,c,d}` (here `1`),
not among the delta. -/
theorem c1_persist_cycle_contract (f : String) (items : List WItem)
    (s : ItemStore) (now : Int) (w : WItem) (g : String) :
    ((saveFeedItemsOps f items s now).filter isReadOp = [.getFeedItems f] ∧
      (saveFeedItemsOps f items s now).head? = some (.getFeedItems f) ∧
      (saveFeedItemsOps f items s now).getLast? = some (.updateLastUpdated f)) ∧
    ((saveFeedItemsDelta f items s now).Sublist items ∧
      (w ∈ saveFeedItemsDelta f items s now ↔
        w ∈ items ∧ ¬ w.guid ∈ boundedStoredGuids s f now) ∧
      (g ∈ boundedStoredGuids s f now ↔
        ∃ z ∈ s, z.feedId = f ∧ 0 ≤ z.pubDate ∧ z.pubDate ≤ now ∧ z.guid = g)) ∧
    ((saveFeedItemsDelta "f1" c1Items c1Store 1000).map (·.guid) = ["c", "d"] ∧
      storedGuids (saveFeedItemsStore "f1" c1Items c1Store 1000) "f1" =
        ["a", "b", "c", "d"] ∧
      updateFeedLastUpdated "f1" 99 [("f1", 5)] = [("f1", 99)] ∧
      c1Report.totalItems = 3 ∧
      (saveFeedItemsEvent c1Report c1Items c1Store 1000).hiddenItems =
        (c1Items.filter (·.isHidden)).length ∧
      (c1Items.filter (·.isHidden)).length = 1) := by
  refine ⟨⟨?_, ?_, ?_⟩, ⟨List.filter_sublist _, ?_, mem_boundedStoredGuids⟩,
    by decide⟩
  · simp only [saveFeedItemsOps]
    split <;> rfl
  · rfl
  · simp only [saveFeedItemsOps]
    split <;> rfl
  · simp [saveFeedItemsDelta, List.mem_filter, List.elem_iff]

/-! ### C5 — bulk update batching, progress and summary -/

/-- Projects the bulk-level messages out of a full `updateAllFeeds` trace. -/
def bulkEventsOf (trace : List (WEvent ⊕ BulkEvent)) : List BulkEvent :=
  trace.filterMap Sum.getRight?

/-- With enough fuel, the batch slices reassemble to the input list. -/
theorem chunksOfAux_flatten {α : Type} (n : Nat) (hn : 0 < n) :
    ∀ (fuel : Nat) (l : List α), l.length ≤ fuel →
      (chunksOfAux n fuel l).flatten = l := by
  intro fuel
  induction fuel with
  | zero =>
    intro l hl
    cases l with
    | nil => rfl
    | cons x xs => simp at hl
  | succ fuel ih =>
    intro l hl
    cases l with
    | nil => rfl
    | cons x xs =>
      simp only [chunksOfAux, List.flatten_cons]
      rw [ih ((x :: xs).drop n) (by simp at hl ⊢; omega)]
      exact List.take_append_drop n (x :: xs)

/-- Every batch slice is non-empty and no longer than the batch size. -/
theorem chunksOfAux_mem {α : Type} (n : Nat) (hn : 0 < n) :
    ∀ (fuel : Nat) (l : List α), l.length ≤ fuel →
      ∀ c ∈ chunksOfAux n fuel l, c ≠ [] ∧ c.length ≤ n := by
  intro fuel
  induction fuel with
  | zero =>
    intro l hl c hc
    cases l with
    | nil => simp [chunksOfAux] at hc
    | cons x xs => simp at hl
  | succ fuel ih =>
    intro l hl c hc
    cases l with
    | nil => simp [chunksOfAux] at hc
    | cons x xs =>
      simp only [chunksOfAux, List.mem_cons] at hc
      rcases hc with rfl | hc
      · constructor
        · cases n with
          | zero => omega
          | succ m => simp [List.take]
        · exact List.length_take_le n (x :: xs)
      · exact ih ((x :: xs).drop n) (by simp at hl ⊢; omega) c hc

/-- A non-empty list yields at least one batch slice. -/
theorem chunksOfAux_ne_nil {α : Type} (n : Nat) :
    ∀ (fuel : Nat) (l : List α), l ≠ [] → l.length ≤ fuel →
      chunksOfAux n fuel l ≠ [] := by
  intro fuel l hne hl
  cases l with
  | nil => exact absurd rfl hne
  | cons x xs =>
    cases fuel with
    | zero => simp at hl
    | succ fuel => simp [chunksOfAux]

/-- Every batch slice except possibly the last is exactly the batch size. -/
theorem chunksOfAux_dropLast_full {α : Type} (n : Nat) (hn : 0 < n) :
    ∀ (fuel : Nat) (l : List α), l.length ≤ fuel →
      ∀ c ∈ (chunksOfAux n fuel l).dropLast, c.length = n := by
  intro fuel
  induction fuel with
  | zero =>
    intro l hl c hc
    cases l with
    | nil => simp [chunksOfAux] at hc
    | cons x xs => simp at hl
  | succ fuel ih =>
    intro l hl c hc
    cases l with
    | nil => simp [chunksOfAux] at hc
    | cons x xs =>
      simp only [chunksOfAux] at hc
      by_cases hrest : (x :: xs).drop n = []
      · simp [hrest, chunksOfAux] at hc
      · have hne := chunksOfAux_ne_nil n fuel ((x :: xs).drop n) hrest
          (by simp at hl ⊢; omega)
        rw [List.dropLast_cons_of_ne_nil hne, List.mem_cons] at hc
        rcases hc with rfl | hc
        · have hlong : n < (x :: xs).length := by
            by_contra h
            exact hrest (List.drop_eq_nil_of_le (by omega))
          simp only [List.length_take, List.length_cons] at hlong ⊢
          omega
        · exact ih ((x :: xs).drop n) (by simp at hl ⊢; omega) c hc

/-- The shared counter ends at `start + number of feeds processed`. -/
theorem runBatchFeeds_snd (update : FeedSrc → List WEvent) (total : Nat) :
    ∀ (fs : List FeedSrc) (completed : Nat),
      (runBatchFeeds update total fs completed).2 = completed + fs.length := by
  intro fs
  induction fs with
  | nil => intro completed; simp [runBatchFeeds]
  | cons f rest ih =>
    intro completed
    simp only [runBatchFeeds, ih (completed + 1), List.length_cons]
    omega

/-- The bulk messages of a feed run are one progress message per feed, with
the counter taking each value `completed + 1 … completed + length` in
order, independently of the per-feed traces. -/
theorem runBatchFeeds_bulk (update : FeedSrc → List WEvent) (total : Nat) :
    ∀ (fs : List FeedSrc) (completed : Nat),
      bulkEventsOf (runBatchFeeds update total fs completed).1 =
        (List.range fs.length).map fun i =>
          .bulkProgress (jsRoundPct (completed + i + 1) total) total
            (completed + i + 1) := by
  intro fs
  induction fs with
  | nil => intro completed; rfl
  | cons f rest ih =>
    intro completed
    have harith : ∀ i : Nat, completed + 1 + i + 1 = completed + (i + 1) + 1 := by
      omega
    simp only [runBatchFeeds, bulkEventsOf, List.filterMap_append,
      List.filterMap_map, List.filterMap_cons, List.length_cons]
    rw [List.range_succ_eq_map]
    simp only [List.map_cons, List.map_map]
    have hleft : (List.filterMap (Sum.getRight? ∘ Sum.inl) (update f) :
        List BulkEvent) = [] := by
      simp [Function.comp, Sum.getRight?]
    rw [hleft]
    simp only [Sum.getRight?, List.nil_append]
    have := ih (completed + 1)
    simp only [bulkEventsOf] at this
    rw [this]
    simp [Function.comp, harith]

/-- C5: `updateAllFeeds` slices the active feeds into batches of 3 (every
batch non-empty, at most 3, and all but possibly the last exactly 3, and
the batches reassemble to the active list); whatever each feed's own update
does (`update` is arbitrary — success or failure — and each batch may
complete in any order `reorder`), the bulk-level trace is exactly one
initial progress message, one progress message per finished feed counting
`1 … N` of `N`, and a final summary with `completedFeeds = N`, where `N` is
the number of active feeds. -/
theorem c5_bulk_update_batches (reorder : List FeedSrc → List FeedSrc)
    (update : FeedSrc → List WEvent) (feeds : List FeedSrc)
    (hperm : ∀ c : List FeedSrc, (reorder c).Perm c) :
    (chunksOf 3 (feeds.filter (·.isActive))).flatten = feeds.filter (·.isActive) ∧
    (∀ c ∈ chunksOf 3 (feeds.filter (·.isActive)), c ≠ [] ∧ c.length ≤ 3) ∧
    (∀ c ∈ (chunksOf 3 (feeds.filter (·.isActive))).dropLast, c.length = 3) ∧
    bulkEventsOf (updateAllFeeds reorder update feeds) =
      .bulkProgress 0 (feeds.filter (·.isActive)).length 0 ::
        (((List.range (feeds.filter (·.isActive)).length).map fun i =>
          BulkEvent.bulkProgress
            (jsRoundPct (i + 1) (feeds.filter (·.isActive)).length)
            (feeds.filter (·.isActive)).length (i + 1)) ++
          [.feedsUpdated (feeds.filter (·.isActive)).length
            (feeds.filter (·.isActive)).length]) := by
  have h1 : (chunksOf 3 (feeds.filter (·.isActive))).flatten =
      feeds.filter (·.isActive) :=
    chunksOfAux_flatten 3 (by decide) _ _ le_rfl
  refine ⟨h1, chunksOfAux_mem 3 (by decide) _ _ le_rfl,
    chunksOfAux_dropLast_full 3 (by decide) _ _ le_rfl, ?_⟩
  have hlen : ((chunksOf 3 (feeds.filter (·.isActive))).map reorder).flatten.length =
      (feeds.filter (·.isActive)).length := by
    rw [List.length_flatten, List.map_map]
    have hcong : (chunksOf 3 (feeds.filter (·.isActive))).map
          (List.length ∘ reorder) =
        (chunksOf 3 (feeds.filter (·.isActive))).map List.length :=
      List.map_congr_left fun c _ => (hperm c).length_eq
    rw [hcong, ← List.length_flatten, h1]
  simp only [updateAllFeeds, bulkEventsOf, List.filterMap_cons,
    List.filterMap_append, Sum.getRight?]
  have hbulk := runBatchFeeds_bulk update (feeds.filter (·.isActive)).length
    (((chunksOf 3 (feeds.filter (·.isActive))).map reorder).flatten) 0
  simp only [bulkEventsOf] at hbulk
  rw [hbulk, runBatchFeeds_snd, hlen]
  simp

/-- Four active feeds and one inactive feed, for the bulk witness. -/
def c5Feeds : List FeedSrc :=
  [⟨"a", "u1", true⟩, ⟨"b", "u2", true⟩, ⟨"c", "u3", true⟩,
   ⟨"d", "u4", true⟩, ⟨"e", "u5", false⟩]

/-- Witness for `c5_bulk_update_batches`: identity completion order and
empty per-feed traces over `c5Feeds` (4 active feeds → batches of 3 + 1). -/
theorem c5_bulk_update_batches_witness :
    bulkEventsOf (updateAllFeeds id (fun _ => []) c5Feeds) =
      .bulkProgress 0 (c5Feeds.filter (·.isActive)).length 0 ::
        (((List.range (c5Feeds.filter (·.isActive)).length).map fun i =>
          BulkEvent.bulkProgress
            (jsRoundPct (i + 1) (c5Feeds.filter (·.isActive)).length)
            (c5Feeds.filter (·.isActive)).length (i + 1)) ++
          [.feedsUpdated (c5Feeds.filter (·.isActive)).length
            (c5Feeds.filter (·.isActive)).length]) :=
  (c5_bulk_update_batches id (fun _ => []) c5Feeds fun c => List.Perm.refl c).2.2.2

/-! ### Store lemmas for the dedup invariant (C6, C7) -/

/-- Key uniqueness as a pairwise property. -/
theorem nodupIds_iff (s : ItemStore) :
    NodupIds s ↔ s.Pairwise (fun a b => a.id ≠ b.id) := by
  simp [NodupIds, List.Nodup, List.pairwise_map]

/-- Membership in a `put` result: the record with the written key is
replaced, everything else survives. -/
theorem mem_putItem {s : ItemStore} {x z : StoredItem} :
    z ∈ putItem s x ↔ (z ∈ s ∧ z.id ≠ x.id) ∨ z = x := by
  by_cases hex : s.any (fun y => y.id == x.id) = true
  · rw [putItem, if_pos hex, List.mem_map]
    constructor
    · rintro ⟨y, hy, rfl⟩
      by_cases hid : (y.id == x.id) = true
      · rw [if_pos hid]
        exact .inr rfl
      · rw [if_neg hid]
        exact .inl ⟨hy, fun h => hid (by simp [h])⟩
    · rintro (⟨hz, hne⟩ | rfl)
      · exact ⟨z, hz, by simp [beq_iff_eq, hne]⟩
      · rcases List.any_eq_true.mp hex with ⟨y, hy, hid⟩
        exact ⟨y, hy, by simp [hid]⟩
  · rw [putItem, if_neg hex, List.mem_append, List.mem_singleton]
    have hno : ∀ y ∈ s, y.id ≠ x.id := by
      intro y hy hcontra
      exact hex (List.any_eq_true.mpr ⟨y, hy, by simp [hcontra]⟩)
    constructor
    · rintro (hz | rfl)
      · exact .inl ⟨hz, hno z hz⟩
      · exact .inr rfl
    · rintro (⟨hz, _⟩ | rfl)
      · exact .inl hz
      · exact .inr rfl

/-- `put` never duplicates a key. -/
theorem nodupIds_putItem {s : ItemStore} {x : StoredItem} (h : NodupIds s) :
    NodupIds (putItem s x) := by
  by_cases hex : s.any (fun y => y.id == x.id) = true
  · rw [NodupIds, putItem, if_pos hex]
    have hmap : (s.map fun y => if y.id == x.id then x else y).map (·.id) =
        s.map (·.id) := by
      rw [List.map_map]
      refine List.map_congr_left fun y _ => ?_
      by_cases hid : y.id = x.id <;> simp [hid]
    rw [hmap]
    exact h
  · rw [NodupIds, putItem, if_neg hex, List.map_append, List.nodup_append]
    refine ⟨h, List.nodup_singleton _, ?_⟩
    intro i hi hix
    simp only [List.map_singleton, List.mem_singleton] at hix
    rcases List.mem_map.mp hi with ⟨y, hy, rfl⟩
    exact hex (List.any_eq_true.mpr ⟨y, hy, by simp [hix]⟩)

/-- The per-feed dedup invariant, phrased on members with distinct keys. -/
def GuidUniqueMem (s : ItemStore) : Prop :=
  ∀ a ∈ s, ∀ b ∈ s, a.id ≠ b.id → ¬(a.feedId = b.feedId ∧ a.guid = b.guid)

/-- Over a store with unique keys, the pairwise invariant and its
membership phrasing agree. -/
theorem guidUnique_iff {s : ItemStore} (h : NodupIds s) :
    GuidUniquePerFeed s ↔ GuidUniqueMem s := by
  rw [nodupIds_iff, List.pairwise_iff_get] at h
  constructor
  · intro hp a ha b hb hab
    have hsym : Symmetric fun a b : StoredItem =>
        ¬(a.feedId = b.feedId ∧ a.guid = b.guid) := by
      intro a b hr ⟨hf, hg⟩
      exact hr ⟨hf.symm, hg.symm⟩
    exact hp.forall hsym ha hb (fun e => hab (congrArg (·.id) e))
  · intro hm
    rw [GuidUniquePerFeed, List.pairwise_iff_get]
    intro i j hij
    exact hm _ (s.get_mem _ _) _ (s.get_mem _ _) (h i j hij)

/-- Invariant carried through a `DatabaseService.addFeedItems` write into a
store that started as `s`: every record of feed `f` either carries the
canonical derived key, or is an original record of `s` (its guid already
stored for `f`, its key a dash-free `generateId` value). -/
def DbWriteInv (s s' : ItemStore) (f : String) : Prop :=
  ∀ y ∈ s', y.feedId = f →
    y.id = dbItemId f y.guid ∨
      (y.guid ∈ storedGuids s f ∧ ∀ c ∈ y.id.data, c ≠ '-')

/-- One `put` of a canonically-keyed item of feed `f`: keys stay unique,
the write invariant survives, the feed's guid set grows by exactly that
guid (in particular no stored guid is lost, even when the written guid is
already stored), and every record is an original or the written one.  No
freshness of the written guid is assumed. -/
theorem putItem_db_basic {s s' : ItemStore} {f : String} {w : WItem}
    (hn : NodupIds s') (hcl : DbWriteInv s s' f) (hwf : w.feedId = f) :
    NodupIds (putItem s' (mkDbStored w)) ∧
    DbWriteInv s (putItem s' (mkDbStored w)) f ∧
    (∀ g, g ∈ storedGuids (putItem s' (mkDbStored w)) f ↔
      g ∈ storedGuids s' f ∨ g = w.guid) ∧
    (∀ z ∈ putItem s' (mkDbStored w), z ∈ s' ∨ z = mkDbStored w) := by
  have hxid : (mkDbStored w).id = dbItemId f w.guid := by
    simp [mkDbStored, hwf]
  have hxf : (mkDbStored w).feedId = f := hwf
  have hxg : (mkDbStored w).guid = w.guid := rfl
  refine ⟨nodupIds_putItem hn, ?_, ?_, ?_⟩
  · intro y hy hyf
    rcases mem_putItem.mp hy with ⟨hy', _⟩ | rfl
    · exact hcl y hy' hyf
    · exact .inl (hxid.trans (by rw [hxg]))
  · intro g
    constructor
    · intro hg
      rcases mem_storedGuids.mp hg with ⟨z, hz, hzf, rfl⟩
      rcases mem_putItem.mp hz with ⟨hz', _⟩ | rfl
      · exact .inl (mem_storedGuids.mpr ⟨z, hz', hzf, rfl⟩)
      · exact .inr hxg
    · rintro (hg | rfl)
      · rcases mem_storedGuids.mp hg with ⟨z, hz, hzf, rfl⟩
        by_cases hzid : z.id = (mkDbStored w).id
        · rcases hcl z hz hzf with hid | ⟨hmem, hdash⟩
          · have : dbItemId f z.guid = dbItemId f w.guid := by
              rw [← hid, hzid, hxid]
            have hzg : z.guid = w.guid := dbItemId_guid_inj this
            refine mem_storedGuids.mpr
              ⟨mkDbStored w, mem_putItem.mpr (.inr rfl), hxf, ?_⟩
            rw [hxg, ← hzg]
          · have hdmem : '-' ∈ z.id.data := by
              rw [hzid, hxid]
              exact dash_mem_dbItemId f w.guid
            exact absurd hdmem fun hc => hdash '-' hc rfl
        · exact mem_storedGuids.mpr ⟨z, mem_putItem.mpr (.inl ⟨hz, hzid⟩), hzf, rfl⟩
      · exact mem_storedGuids.mpr ⟨mkDbStored w, mem_putItem.mpr (.inr rfl), hxf, hxg⟩
  · intro z hz
    rcases mem_putItem.mp hz with ⟨hz', _⟩ | rfl
    · exact .inl hz'
    · exact .inr rfl

/-- One `put` of a canonically-keyed item whose guid is not among the
feed's stored guids of the original store additionally preserves the
per-feed dedup invariant. -/
theorem putItem_db_guid {s s' : ItemStore} {f : String} {w : WItem}
    (hu : GuidUniqueMem s') (hcl : DbWriteInv s s' f)
    (hwf : w.feedId = f) (hfresh : w.guid ∉ storedGuids s f) :
    GuidUniqueMem (putItem s' (mkDbStored w)) := by
  have hxid : (mkDbStored w).id = dbItemId f w.guid := by
    simp [mkDbStored, hwf]
  have hxf : (mkDbStored w).feedId = f := hwf
  have hxg : (mkDbStored w).guid = w.guid := rfl
  intro a ha b hb hab ⟨hf, hg⟩
  rcases mem_putItem.mp ha with ⟨ha', hane⟩ | rfl
  · rcases mem_putItem.mp hb with ⟨hb', hbne⟩ | rfl
    · exact hu a ha' b hb' hab ⟨hf, hg⟩
    · have haf : a.feedId = f := hf.trans hxf
      have hag : a.guid = w.guid := hg.trans hxg
      rcases hcl a ha' haf with hid | ⟨hmem, _⟩
      · exact hane (by rw [hid, hag, ← hxid])
      · exact hfresh (hag ▸ hmem)
  · rcases mem_putItem.mp hb with ⟨hb', hbne⟩ | rfl
    · have hbf : b.feedId = f := hf.symm.trans hxf
      have hbg : b.guid = w.guid := hg.symm.trans hxg
      rcases hcl b hb' hbf with hid | ⟨hmem, _⟩
      · exact hbne (by rw [hid, hbg, ← hxid])
      · exact hfresh (hbg ▸ hmem)
    · exact hab rfl

/-- `addFeedItems` of a batch of feed-`f` items: keys stay unique, the
write invariant survives, the feed's stored guid set grows by exactly the
batch's guids (no stored guid is ever lost), and every record is an
original or one of the written items — with no freshness assumption on the
batch. -/
theorem addFeedItems_db_basic {f : String} :
    ∀ (l : List WItem) (s s' : ItemStore),
      NodupIds s' → DbWriteInv s s' f → (∀ w ∈ l, w.feedId = f) →
      NodupIds (addFeedItems l s') ∧
      DbWriteInv s (addFeedItems l s') f ∧
      (∀ g, g ∈ storedGuids (addFeedItems l s') f ↔
        g ∈ storedGuids s' f ∨ g ∈ l.map (·.guid)) ∧
      (∀ z ∈ addFeedItems l s', z ∈ s' ∨ ∃ w ∈ l, z = mkDbStored w) := by
  intro l
  induction l with
  | nil =>
    intro s s' hn hcl _
    exact ⟨hn, hcl, fun g => by simp [addFeedItems], fun z hz => .inl hz⟩
  | cons w rest ih =>
    intro s s' hn hcl hf
    have hstep := @putItem_db_basic s s' f w hn hcl (hf w (by simp))
    have hrec := ih s (putItem s' (mkDbStored w)) hstep.1 hstep.2.1
      (fun w' hw' => hf w' (by simp [hw']))
    have hfold : addFeedItems (w :: rest) s' =
        addFeedItems rest (putItem s' (mkDbStored w)) := rfl
    rw [hfold]
    refine ⟨hrec.1, hrec.2.1, ?_, ?_⟩
    · intro g
      rw [hrec.2.2.1 g, hstep.2.2.1 g]
      simp only [List.map_cons, List.mem_cons]
      constructor
      · rintro ((hg | rfl) | hg)
        · exact .inl hg
        · exact .inr (.inl rfl)
        · exact .inr (.inr hg)
      · rintro (hg | (rfl | hg))
        · exact .inl (.inl hg)
        · exact .inl (.inr rfl)
        · exact .inr hg
    · intro z hz
      rcases hrec.2.2.2 z hz with hz' | ⟨w', hw', rfl⟩
      · rcases hstep.2.2.2 z hz' with hz'' | rfl
        · exact .inl hz''
        · exact .inr ⟨w, by simp⟩
      · exact .inr ⟨w', by simp [hw']⟩

/-- `addFeedItems` of a batch of feed-`f` items whose guids are all absent
from the original store's guid set additionally preserves the per-feed
dedup invariant. -/
theorem addFeedItems_db_guid {f : String} :
    ∀ (l : List WItem) (s s' : ItemStore),
      NodupIds s' → GuidUniqueMem s' → DbWriteInv s s' f →
      (∀ w ∈ l, w.feedId = f) → (∀ w ∈ l, w.guid ∉ storedGuids s f) →
      GuidUniqueMem (addFeedItems l s') := by
  intro l
  induction l with
  | nil =>
    intro s s' _ hu _ _ _
    exact hu
  | cons w rest ih =>
    intro s s' hn hu hcl hf hfresh
    have hbasic := @putItem_db_basic s s' f w hn hcl (hf w (by simp))
    have hguid := @putItem_db_guid s s' f w hu hcl (hf w (by simp))
      (hfresh w (by simp))
    exact ih s (putItem s' (mkDbStored w)) hbasic.1 hguid hbasic.2.1
      (fun w' hw' => hf w' (by simp [hw']))
      (fun w' hw' => hfresh w' (by simp [hw']))

/-- The initial write invariant holds on any store whose keys are canonical
or dash-free. -/
theorem dbWriteInv_of_canon {s : ItemStore} {f : String}
    (hc : ∀ y ∈ s, CanonOrDashless y) : DbWriteInv s s f := by
  intro y hy hyf
  rcases hc y hy with hid | hdl
  · exact .inl (by rw [hid, hyf])
  · exact .inr ⟨mem_storedGuids.mpr ⟨y, hy, hyf, rfl⟩, hdl⟩

/-- Items surviving the `saveFeedItems` dedup filter have guids absent from
the bounded read. -/
theorem saveFeedItems_kept_not_bounded {f : String} {items : List WItem}
    {s : ItemStore} {now : Int} :
    ∀ w ∈ items.filter
        (fun w => !(boundedStoredGuids s f now).contains w.guid),
      w.guid ∉ boundedStoredGuids s f now := by
  intro w hw
  simpa using List.of_mem_filter hw

/-- The dedup-and-write step of the `WorkerManager` path, basic half
(no date-visibility assumption): keys stay unique (no duplicate stored
identities), every record key stays canonical or dash-free, the feed's
stored guid set becomes exactly the old set united with the batch's guids
(nothing already stored is lost, everything incoming lands), and every
record is an original or a canonically-keyed write. -/
theorem saveFeedItemsStore_basic (f : String) (items : List WItem)
    (s : ItemStore) (now : Int)
    (hn : NodupIds s) (hc : ∀ y ∈ s, CanonOrDashless y)
    (hitems : ∀ w ∈ items, w.feedId = f) :
    NodupIds (saveFeedItemsStore f items s now) ∧
    (∀ y ∈ saveFeedItemsStore f items s now, CanonOrDashless y) ∧
    (∀ g, g ∈ storedGuids (saveFeedItemsStore f items s now) f ↔
      g ∈ storedGuids s f ∨ g ∈ items.map (·.guid)) ∧
    (∀ z ∈ saveFeedItemsStore f items s now,
      z ∈ s ∨ ∃ w : WItem, z = mkDbStored w) := by
  have hfold := @addFeedItems_db_basic f
    (items.filter (fun w => !(boundedStoredGuids s f now).contains w.guid)) s s
    hn (dbWriteInv_of_canon hc)
    (fun w hw => hitems w (List.mem_of_mem_filter hw))
  have hres : saveFeedItemsStore f items s now =
      addFeedItems
        (items.filter (fun w => !(boundedStoredGuids s f now).contains w.guid))
        s := rfl
  rw [hres]
  refine ⟨hfold.1, ?_, ?_, ?_⟩
  · intro y hy
    rcases hfold.2.2.2 y hy with hy' | ⟨w, _, rfl⟩
    · exact hc y hy'
    · exact .inl rfl
  · intro g
    rw [hfold.2.2.1 g]
    constructor
    · rintro (hg | hg)
      · exact .inl hg
      · rcases List.mem_map.mp hg with ⟨w, hw, rfl⟩
        exact .inr (List.mem_map.mpr ⟨w, List.mem_of_mem_filter hw, rfl⟩)
    · rintro (hg | hg)
      · exact .inl hg
      · rcases List.mem_map.mp hg with ⟨w, hw, rfl⟩
        by_cases hkept : (boundedStoredGuids s f now).contains w.guid = true
        · exact .inl (boundedStoredGuids_subset w.guid (List.elem_iff.mp hkept))
        · refine .inr (List.mem_map.mpr ⟨w, List.mem_filter.mpr ⟨hw, ?_⟩, rfl⟩)
          simp only [Bool.not_eq_true']
          exact Bool.not_eq_true _ ▸ hkept
  · intro z hz
    rcases hfold.2.2.2 z hz with hz' | ⟨w, _, rfl⟩
    · exact .inl hz'
    · exact .inr ⟨w, rfl⟩

/-- The dedup-and-write step of the `WorkerManager` path, dedup half: when
every stored item of the feed is date-visible at the read time (so the
bounded read sees the feed's complete guid set), the per-feed dedup
invariant is preserved for any incoming batch of the feed's items. -/
theorem saveFeedItemsStore_guid (f : String) (items : List WItem)
    (s : ItemStore) (now : Int)
    (hn : NodupIds s) (hu : GuidUniquePerFeed s)
    (hc : ∀ y ∈ s, CanonOrDashless y)
    (hitems : ∀ w ∈ items, w.feedId = f)
    (hvis : ∀ y ∈ s, y.feedId = f → 0 ≤ y.pubDate ∧ y.pubDate ≤ now) :
    GuidUniquePerFeed (saveFeedItemsStore f items s now) := by
  have heq := boundedStoredGuids_eq_of_visible hvis
  have hres : saveFeedItemsStore f items s now =
      addFeedItems
        (items.filter (fun w => !(boundedStoredGuids s f now).contains w.guid))
        s := rfl
  have hnres := (saveFeedItemsStore_basic f items s now hn hc hitems).1
  rw [hres] at hnres ⊢
  refine (guidUnique_iff hnres).mpr ?_
  refine @addFeedItems_db_guid f _ s s hn ((guidUnique_iff hn).mp hu)
    (dbWriteInv_of_canon hc)
    (fun w hw => hitems w (List.mem_of_mem_filter hw)) ?_
  intro w hw
  rw [← heq]
  exact saveFeedItems_kept_not_bounded w hw

/-- Stored guids distribute over store concatenation. -/
theorem storedGuids_append (s₁ s₂ : ItemStore) (f : String) :
    storedGuids (s₁ ++ s₂) f = storedGuids s₁ f ++ storedGuids s₂ f := by
  simp [storedGuids, List.filter_append]

/-- The service-worker persist path, basic half: with fresh, dash-free,
pairwise-distinct `generateId` keys, keys stay unique, every key stays
canonical or dash-free, the feed's stored guid set becomes exactly the old
set united with the batch's guids, and every record is an original or one
of the incoming items — with no assumption on the batch's guids. -/
theorem performSave_basic (f : String) (items : List StoredItem)
    (s : ItemStore)
    (hn : NodupIds s) (hc : ∀ y ∈ s, CanonOrDashless y)
    (hif : ∀ it ∈ items, it.feedId = f)
    (hidn : (items.map (·.id)).Nodup)
    (hfresh : ∀ it ∈ items, it.id ∉ s.map (·.id))
    (hdl : ∀ it ∈ items, ∀ c ∈ it.id.data, c ≠ '-') :
    NodupIds (performSaveNewFeedItems f items s) ∧
    (∀ y ∈ performSaveNewFeedItems f items s, CanonOrDashless y) ∧
    (∀ g, g ∈ storedGuids (performSaveNewFeedItems f items s) f ↔
      g ∈ storedGuids s f ∨ g ∈ items.map (·.guid)) ∧
    (∀ z ∈ performSaveNewFeedItems f items s, z ∈ s ∨ z ∈ items) := by
  have hres : performSaveNewFeedItems f items s =
      s ++ items.filter (fun it => !(storedGuids s f).contains it.guid) := rfl
  set kept := items.filter (fun it => !(storedGuids s f).contains it.guid)
    with hkept
  have hsub : kept.Sublist items := List.filter_sublist _
  have hkeptmem : ∀ it ∈ kept, it ∈ items := fun it hit => hsub.mem hit
  have hnres : NodupIds (s ++ kept) := by
    unfold NodupIds
    rw [List.map_append, List.nodup_append]
    refine ⟨hn, (hsub.map _).nodup hidn, ?_⟩
    intro i hi hik
    rcases List.mem_map.mp hik with ⟨it, hit, rfl⟩
    exact hfresh it (hkeptmem it hit) hi
  rw [hres]
  refine ⟨hnres, ?_, ?_, ?_⟩
  · intro y hy
    rcases List.mem_append.mp hy with hy' | hy'
    · exact hc y hy'
    · exact .inr (hdl y (hkeptmem y hy'))
  · intro g
    rw [storedGuids_append, List.mem_append]
    constructor
    · rintro (hg | hg)
      · exact .inl hg
      · rcases mem_storedGuids.mp hg with ⟨z, hz, _, rfl⟩
        exact .inr (List.mem_map.mpr ⟨z, hkeptmem z hz, rfl⟩)
    · rintro (hg | hg)
      · exact .inl hg
      · rcases List.mem_map.mp hg with ⟨it, hit, rfl⟩
        by_cases hkeptit : (storedGuids s f).contains it.guid = true
        · exact .inl (by rwa [← List.elem_iff])
        · refine .inr (mem_storedGuids.mpr
            ⟨it, List.mem_filter.mpr ⟨hit, ?_⟩, hif it hit, rfl⟩)
          simp only [Bool.not_eq_true']
          exact Bool.not_eq_true _ ▸ hkeptit
  · intro z hz
    rcases List.mem_append.mp hz with hz' | hz'
    · exact .inl hz'
    · exact .inr (hkeptmem z hz')

/-- The service-worker persist path, dedup half: when additionally the
incoming batch's guids are pairwise distinct, the per-feed dedup invariant
is preserved.  (The batch read is the service worker's own unbounded
`by-feedId` read, so no date-visibility condition is needed here.) -/
theorem performSave_guid (f : String) (items : List StoredItem)
    (s : ItemStore)
    (hn : NodupIds s) (hu : GuidUniquePerFeed s)
    (hc : ∀ y ∈ s, CanonOrDashless y)
    (hif : ∀ it ∈ items, it.feedId = f)
    (hgn : (items.map (·.guid)).Nodup)
    (hidn : (items.map (·.id)).Nodup)
    (hfresh : ∀ it ∈ items, it.id ∉ s.map (·.id))
    (hdl : ∀ it ∈ items, ∀ c ∈ it.id.data, c ≠ '-') :
    GuidUniquePerFeed (performSaveNewFeedItems f items s) := by
  have hres : performSaveNewFeedItems f items s =
      s ++ items.filter (fun it => !(storedGuids s f).contains it.guid) := rfl
  set kept := items.filter (fun it => !(storedGuids s f).contains it.guid)
    with hkept
  have hsub : kept.Sublist items := List.filter_sublist _
  have hkeptmem : ∀ it ∈ kept, it ∈ items := fun it hit => hsub.mem hit
  have hkeptfresh : ∀ it ∈ kept, it.guid ∉ storedGuids s f := by
    intro it hit
    simpa using List.of_mem_filter hit
  have hnres := (performSave_basic f items s hn hc hif hidn hfresh hdl).1
  rw [hres] at hnres ⊢
  have hpairg : items.Pairwise (fun a b => a.guid ≠ b.guid) :=
    List.pairwise_map.mp hgn
  have hsymg : Symmetric fun a b : StoredItem => a.guid ≠ b.guid := by
    intro a b hr he
    exact hr he.symm
  refine (guidUnique_iff hnres).mpr ?_
  intro a ha b hb hab ⟨hfid, hg⟩
  rcases List.mem_append.mp ha with ha' | ha'
  · rcases List.mem_append.mp hb with hb' | hb'
    · exact (guidUnique_iff hn).mp hu a ha' b hb' hab ⟨hfid, hg⟩
    · have hbf : b.feedId = f := hif b (hkeptmem b hb')
      have haf : a.feedId = f := hfid.trans hbf
      exact hkeptfresh b hb'
        (mem_storedGuids.mpr ⟨a, ha', haf, hg⟩)
  · rcases List.mem_append.mp hb with hb' | hb'
    · have haf : a.feedId = f := hif a (hkeptmem a ha')
      have hbf : b.feedId = f := hfid.symm.trans haf
      exact hkeptfresh a ha'
        (mem_storedGuids.mpr ⟨b, hb', hbf, hg.symm⟩)
    · have hne : a ≠ b := fun e => hab (congrArg (·.id) e)
      exact (hpairg.sublist hsub).forall hsymg ha' hb' hne hg

/-! ### C6 — the per-feed guid-uniqueness invariant -/

/-- Two freshly fetched service-worker items sharing a guid (as
`parseRSSFeed` can produce, e.g. two entries with the same link and no
guid), with distinct `generateId` keys. -/
def c6DupItemA : StoredItem := ⟨"k7a01", "feedZ", "guidX", false, 50⟩

/-- The second item of the duplicate-guid batch. -/
def c6DupItemB : StoredItem := ⟨"k7a02", "feedZ", "guidX", false, 60⟩

/-- A store holding one service-worker record of feed `feedW`, guid `g9`,
dated 5000 ms — in the future of the 1000 ms read below. -/
def c6FutureStore : ItemStore := [⟨"k9x", "feedW", "g9", false, 5000⟩]

/-- A worker item carrying the same guid `g9` for the same feed. -/
def c6FutureIncoming : WItem := ⟨"feedW", "g9", false, 200⟩

/-- C6 counterexample, both persist paths: (service worker) the path only
deduplicates against *stored* guids, so a single batch containing two new
items with the same guid yields two same-feed items sharing a guid;
(WorkerManager) its dedup read is the date-bounded
`DatabaseService.getFeedItems`, so a stored record dated after the read
time is invisible and its guid is re-admitted under the canonical key —
again two same-feed items sharing a guid.  Neither persist operation
preserves the invariant unconditionally. -/
theorem c6_sw_duplicate_guid_batch_violates :
    (GuidUniquePerFeed ([] : ItemStore) ∧
      ¬ GuidUniquePerFeed
          (performSaveNewFeedItems "feedZ" [c6DupItemA, c6DupItemB] [])) ∧
    (GuidUniquePerFeed c6FutureStore ∧
      ¬ GuidUniquePerFeed
          (saveFeedItemsStore "feedW" [c6FutureIncoming] c6FutureStore 1000)) := by
  refine ⟨⟨by decide, by decide⟩, ⟨by decide, by decide⟩⟩

/-- C6 (amended): on every well-formed store (unique keys, invariant
holding, every key canonical or dash-free), the invariant is preserved by
the `WorkerManager`/`DatabaseService` persist path for any incoming batch
of the feed's items *provided every stored item of the feed is
date-visible to the bounded read* (`0 ≤ pubDate ≤ read time` — a
future-dated or pre-epoch record escapes the read and its guid is
re-admitted), and by the service-worker persist path provided the batch's
guids are pairwise distinct and its generated keys are fresh, distinct and
dash-free. -/
theorem c6_guid_invariant_preserved
    (f : String) (ws : List WItem) (swItems : List StoredItem)
    (s : ItemStore) (now : Int)
    (hn : NodupIds s) (hu : GuidUniquePerFeed s)
    (hc : ∀ y ∈ s, CanonOrDashless y)
    (hws : ∀ w ∈ ws, w.feedId = f)
    (hvis : ∀ y ∈ s, y.feedId = f → 0 ≤ y.pubDate ∧ y.pubDate ≤ now)
    (hif : ∀ it ∈ swItems, it.feedId = f)
    (hgn : (swItems.map (·.guid)).Nodup)
    (hidn : (swItems.map (·.id)).Nodup)
    (hfresh : ∀ it ∈ swItems, it.id ∉ s.map (·.id))
    (hdl : ∀ it ∈ swItems, ∀ c ∈ it.id.data, c ≠ '-') :
    GuidUniquePerFeed (saveFeedItemsStore f ws s now) ∧
      GuidUniquePerFeed (performSaveNewFeedItems f swItems s) :=
  ⟨saveFeedItemsStore_guid f ws s now hn hu hc hws hvis,
   performSave_guid f swItems s hn hu hc hif hgn hidn hfresh hdl⟩

/-- Witness for `c6_guid_invariant_preserved`: a store holding one
date-visible record of the feed, a database batch that even repeats a guid
internally, and a singleton service-worker batch. -/
theorem c6_guid_invariant_preserved_witness :
    GuidUniquePerFeed
        (saveFeedItemsStore "f" [⟨"f", "g1", false, 10⟩, ⟨"f", "g1", true, 20⟩]
          [⟨"f-g0", "f", "g0", false, 5⟩] 1000) ∧
      GuidUniquePerFeed
        (performSaveNewFeedItems "f" [⟨"abc", "f", "g2", false, 30⟩]
          [⟨"f-g0", "f", "g0", false, 5⟩]) :=
  c6_guid_invariant_preserved "f"
    [⟨"f", "g1", false, 10⟩, ⟨"f", "g1", true, 20⟩]
    [⟨"abc", "f", "g2", false, 30⟩]
    [⟨"f-g0", "f", "g0", false, 5⟩] 1000
    (by decide) (by decide) (by decide) (by decide) (by decide) (by decide)
    (by decide) (by decide) (by decide) (by decide)

/-! ### C7 — mutual exclusion of the two persist actors -/

end Feedreader
